import Mathlib

/-!
Verification development for the IETI dof-mapper core (`gsIetiMapper.hpp`):
dof bookkeeping and constraint generation for non-overlapping domain
decomposition.  The mapper's own algorithms (initialization, corner and
interface-average primal constraints, jump-matrix assembly, global-solution
reconstruction) are embedded faithfully from the source; its external
collaborators (the global dof mapper `gsDofMapper`, the multi-basis, the
element assembler) are modelled from the specification of their interface.
-/

namespace GismoIeti

/-- Modelled from the spec: the external `GlobalDofMapper` (`gsDofMapper`, not
part of the verified sources).  `patchDofs[k][i]` is the global index of local
basis function `i` on subdomain `k`.  Global indices follow the documented
layout: free indices are `0 ≤ g < freeSize`, with the coupled ones occupying
the tail `freeSize - coupledSize ≤ g < freeSize`; eliminated (boundary)
indices are `g ≥ freeSize`. -/
structure DofMapper where
  patchDofs : List (List Nat)
  freeSize : Nat
  coupledSize : Nat
deriving DecidableEq, Repr

/-- Number of subdomains (patches) known to the global mapper. -/
def DofMapper.numPatches (m : DofMapper) : Nat := m.patchDofs.length

/-- `patchSize k`: number of local dofs the global mapper declares on patch `k`. -/
def DofMapper.patchSize (m : DofMapper) (k : Nat) : Nat := (m.patchDofs.getD k []).length

/-- `index i k`: global index of local dof `i` on patch `k`. -/
def DofMapper.index (m : DofMapper) (i k : Nat) : Nat := (m.patchDofs.getD k []).getD i 0

/-- A global index is free iff it is below `freeSize`. -/
def DofMapper.isFreeIndex (m : DofMapper) (g : Nat) : Bool := g < m.freeSize

/-- A global index is a boundary (eliminated) index iff it is not free. -/
def DofMapper.isBoundaryIndex (m : DofMapper) (g : Nat) : Bool := m.freeSize ≤ g

/-- A global index is coupled iff it lies in the coupled tail of the free range. -/
def DofMapper.isCoupledIndex (m : DofMapper) (g : Nat) : Bool :=
  (m.freeSize - m.coupledSize ≤ g) && (g < m.freeSize)

/-- Coupled enumeration index of local dof `i` on patch `k`. -/
def DofMapper.cindex (m : DofMapper) (i k : Nat) : Nat :=
  m.index i k - (m.freeSize - m.coupledSize)

/-- All pre-images `(patch, localBasisIndex)` of a global index, in patch order;
models `gsDofMapper::preImage`. -/
def DofMapper.preImage (m : DofMapper) (g : Nat) : List (Nat × Nat) :=
  (List.range m.numPatches).flatMap fun k =>
    ((List.range (m.patchSize k)).filter fun i => m.index i k = g).map fun i => (k, i)

/-- Local mapper built by `init` for patch `k` (identity over `patchSize k`
entries with every local index whose global image is a boundary index
eliminated, then finalized): local dof `i` stays free iff its global image is
free. -/
def DofMapper.localFree (m : DofMapper) (k i : Nat) : Bool := m.index i k < m.freeSize

/-- Contiguous local free index assigned by the finalized local mapper: the
number of free local dofs before `i`. -/
def DofMapper.localIndex (m : DofMapper) (k i : Nat) : Nat :=
  Nat.count (fun j => m.localFree k j = true) i

/-- Free size of the local mapper of patch `k`. -/
def DofMapper.localFreeSize (m : DofMapper) (k : Nat) : Nat :=
  Nat.count (fun j => m.localFree k j = true) (m.patchSize k)

/-- Modelled from the spec: the external multi-basis (`gsMultiBasis`).
`sizes[k]` is the true basis size of patch `k` (local dofs beyond it are
artificial); `corners[k]` lists `functionAtCorner` for the corners of patch
`k` in iteration order; `dim` is the parameter dimension. -/
structure Basis where
  sizes : List Nat
  corners : List (List Nat)
  dim : Nat
deriving DecidableEq, Repr

/-- The read-only inputs of the mapper: global dof mapper and multi-basis. -/
structure Env where
  mapper : DofMapper
  basis : Basis
deriving DecidableEq, Repr

/-- True basis size of patch `k`. -/
def Env.basisSize (env : Env) (k : Nat) : Nat := env.basis.sizes.getD k 0

/-- Corner basis functions of patch `k`. -/
def Env.cornersOf (env : Env) (k : Nat) : List Nat := env.basis.corners.getD k []

/-- Error taxonomy of the spec: configuration errors, sequencing (phase) errors
and internal invariant violations.  All `GISMO_ASSERT` failures of the source
are mapped to the corresponding error. -/
inductive IetiError where
  | config (msg : String)
  | sequencing (msg : String)
  | invariant (msg : String)
deriving DecidableEq, Repr

/-- A sparse row vector over local free dofs: list of `(column, value)` entries. -/
abbrev SparseVec := List (Nat × ℤ)

deriving instance DecidableEq for Except

/-- A sparse matrix: row dimension (kept as a signed `Int`, as in the source,
where `numLagrangeMult` is an `index_t`), column dimension, and the list of
`(row, column, value)` entries in insertion order. -/
structure SparseMat where
  rows : Int
  cols : Nat
  entries : List (Nat × Nat × ℤ)
deriving DecidableEq, Repr

/-- The mutable state of a `gsIetiMapper` object.  `status` is the bitmask
`m_status` (bit 1: initialized, bit 2: artificial dofs present, bit 4: jump
matrices computed, bit 8: corners set up, bit `16 <<< (d-1)`: dimension-`d`
interface averages set up).  `primalConstraints[k]` fuses the source's
parallel vectors `m_primalConstraints[k]` and `m_primalDofIndices[k]` into a
single list of (row, primal id) pairs; primal ids are kept as signed `Int`
(`index_t` in the source). -/
structure IetiState where
  status : Nat
  nPrimalDofs : Nat
  primalConstraints : List (List (SparseVec × Int))
  jumpMatrices : Option (List SparseMat)
deriving DecidableEq, Repr

/-- Whether some patch declares more local dofs than its true basis size
(the `nDofs > m_multiBasis->piece(k).size()` test of `init`). -/
def hasArtificial (env : Env) : Bool :=
  (List.range env.mapper.numPatches).any fun k =>
    decide (env.basisSize k < env.mapper.patchSize k)

/-- Embeds `gsIetiMapper::init` (gsIetiMapper.hpp:44-148).  Checks that the
patch counts agree and that no patch declares fewer dofs than its basis
(`GISMO_ASSERT`s, mapped to `ConfigurationError`), then resets all state and
sets the status bits.  The local mappers, fixed parts and the artificial dof
table are deterministic functions of the inputs and are modelled by
`DofMapper.localFree` / `DofMapper.localIndex` / `DofMapper.preImage`.
Note that `init` reads no part of the previous state: it can be re-invoked. -/
def init (env : Env) : Except IetiError IetiState :=
  if env.mapper.numPatches ≠ env.basis.sizes.length then
    .error (.config "number of patches does not agree")
  else if (List.range env.mapper.numPatches).all
      (fun k => decide (env.basisSize k ≤ env.mapper.patchSize k)) = false then
    .error (.config "the mapper has not as many dofs as the basis")
  else
    .ok { status := if hasArtificial env then 3 else 1
          nPrimalDofs := 0
          primalConstraints := List.replicate env.mapper.numPatches []
          jumpMatrices := none }

/-- The traversal order of `constructGlobalSolutionFromLocalSolutions`: patches
in order, and on each patch only the true (non-artificial) basis functions
`i < basisSize k`. -/
def constructPairs (env : Env) : List (Nat × Nat) :=
  (List.range env.mapper.numPatches).flatMap fun k =>
    (List.range (env.basisSize k)).map fun i => (k, i)

/-- Embeds `constructGlobalSolutionFromLocalSolutions`
(gsIetiMapper.hpp:151-177), for a single right-hand-side column.  Local
contributions are given as `localContribs k r`: the value of local free dof
`r` on patch `k`.  The result starts as the zero vector of length `freeSize`
(values outside the free range are irrelevant and stay `0`) and each free
true-basis dof assigns its local value to its global row, so later patches
overwrite earlier ones. -/
def constructGlobalSolutionFromLocalSolutions (env : Env) (s : IetiState)
    (localContribs : Nat → Nat → ℤ) : Except IetiError (Nat → ℤ) :=
  if s.status &&& 1 = 0 then
    .error (.sequencing "the class has not been initialized")
  else
    .ok <| (constructPairs env).foldl
      (fun r ki =>
        if env.mapper.localFree ki.1 ki.2 &&
            env.mapper.isFreeIndex (env.mapper.index ki.2 ki.1) then
          Function.update r (env.mapper.index ki.2 ki.1)
            (localContribs ki.1 (env.mapper.localIndex ki.1 ki.2))
        else r)
      (fun _ => 0)

/-- Embeds `skeletonDofs` (gsIetiMapper.hpp:459-472): the local free indices of
all coupled dofs of a patch, in local dof order. -/
def skeletonDofs (env : Env) (s : IetiState) (patch : Nat) :
    Except IetiError (List Nat) :=
  if s.status &&& 1 = 0 then
    .error (.sequencing "the class has not been initialized")
  else
    .ok <| ((List.range (env.mapper.patchSize patch)).filter fun i =>
        env.mapper.isCoupledIndex (env.mapper.index i patch)).map fun i =>
      env.mapper.localIndex patch i

/-- Embeds `customPrimalConstraints` (gsIetiMapper.hpp:444-457): all supplied
(patch, row) pairs are registered under the single fresh primal id
`m_nPrimalDofs`, which is incremented once at the end. -/
def customPrimalConstraints (s : IetiState) (data : List (Nat × SparseVec)) :
    Except IetiError IetiState :=
  if s.status &&& 1 = 0 then
    .error (.sequencing "the class has not been initialized")
  else
    .ok { s with
          primalConstraints := (List.range s.primalConstraints.length).map fun k =>
            s.primalConstraints.getD k [] ++
              ((data.filter fun d => d.1 = k).map fun d => (d.2, (s.nPrimalDofs : Int)))
          nPrimalDofs := s.nPrimalDofs + 1 }

/-- The pair traversal order of the coupling-group construction in
`computeJumpMatrices` (gsIetiMapper.hpp:488-503): all `(patch, localDof)`
pairs in patch-major order. -/
def couplingPairs (env : Env) : List (Nat × Nat) :=
  (List.range env.mapper.numPatches).flatMap fun k =>
    (List.range (env.mapper.patchSize k)).map fun i => (k, i)

/-- Groups of coupled dof occurrences: bucket `g` collects, in traversal
order, the `(patch, localFreeIndex)` occurrences of the coupled dof with
coupled enumeration index `g` (gsIetiMapper.hpp:484-503). -/
def buildCoupling (env : Env) : List (List (Nat × Nat)) :=
  (couplingPairs env).foldl
    (fun c ki =>
      if env.mapper.isCoupledIndex (env.mapper.index ki.2 ki.1) then
        c.set (env.mapper.cindex ki.2 ki.1)
          ((c.getD (env.mapper.cindex ki.2 ki.1) []) ++
            [(ki.1, env.mapper.localIndex ki.1 ki.2)])
      else c)
    (List.replicate env.mapper.coupledSize [])

/-- All `(patch, cornerBasisFunction)` pairs in iteration order. -/
def cornerPairs (env : Env) : List (Nat × Nat) :=
  (List.range env.mapper.numPatches).flatMap fun k =>
    (env.cornersOf k).map fun idx => (k, idx)

/-- The `excludeCorners` purge of `computeJumpMatrices`
(gsIetiMapper.hpp:505-522): the coupling group of every coupled corner basis
function is cleared. -/
def purgeCorners (env : Env) (c : List (List (Nat × Nat))) :
    List (List (Nat × Nat)) :=
  (cornerPairs env).foldl
    (fun c ki =>
      if env.mapper.isCoupledIndex (env.mapper.index ki.2 ki.1) then
        c.set (env.mapper.cindex ki.2 ki.1) []
      else c) c

/-- Index pairs `(j1, j2)` enumerated by the nested loops of
`computeJumpMatrices` for one group of size `n` (gsIetiMapper.hpp:548-562):
`j1` runs below `maxIndex` (`n-1` if fully redundant, else `1`) and `j2` runs
from `j1+1` to `n-1`. -/
def pairsOf (fullyRedundant : Bool) (n : Nat) : List (Nat × Nat) :=
  (List.range (if fullyRedundant then n - 1 else 1)).flatMap fun j1 =>
    (List.range' (j1 + 1) (n - (j1 + 1))).map fun j2 => (j1, j2)

/-- The rows emitted for one coupling group: each index pair `(j1, j2)` gives
the occurrence pair (`+1` side, `-1` side). -/
def groupRows (fullyRedundant : Bool) (g : List (Nat × Nat)) :
    List ((Nat × Nat) × (Nat × Nat)) :=
  (pairsOf fullyRedundant g.length).map fun p => (g.getD p.1 (0, 0), g.getD p.2 (0, 0))

/-- All emitted rows over all groups; the running multiplier index of the
source is the position in this list. -/
def emitRows (fullyRedundant : Bool) (c : List (List (Nat × Nat))) :
    List ((Nat × Nat) × (Nat × Nat)) :=
  c.flatMap (groupRows fullyRedundant)

/-- The theoretical Lagrange-multiplier count of gsIetiMapper.hpp:524-535,
computed in signed `index_t` arithmetic: per group of size `n` it adds
`n*(n-1)/2` (fully redundant, with C truncating division) or `n-1`
(minimal), which is `-1` for an emptied group. -/
def numLagrangeMult (fullyRedundant : Bool) (c : List (List (Nat × Nat))) : Int :=
  (c.map fun g =>
    if fullyRedundant then ((g.length : Int) * ((g.length : Int) - 1)).tdiv 2
    else (g.length : Int) - 1).sum

/-- The (≤ 2) sparse entries one emitted row contributes to the matrix of
patch `p` at multiplier index `m`: `+1` at the first occurrence's local
column if it lives on `p`, and `-1` at the second occurrence's local column
if it lives on `p` (gsIetiMapper.hpp:558-559). -/
def rowEntries (p m : Nat) (r : (Nat × Nat) × (Nat × Nat)) : List (Nat × Nat × ℤ) :=
  (if r.1.1 = p then [(m, r.1.2, (1 : ℤ))] else []) ++
  (if r.2.1 = p then [(m, r.2.2, (-1 : ℤ))] else [])

/-- The per-patch jump matrices built from the emitted rows
(gsIetiMapper.hpp:537-572): matrix `p` has `numLagrangeMult` rows,
`localFreeSize p` columns, and one `+1` (resp. `-1`) entry for each emitted
row whose first (resp. second) occurrence lives on patch `p`, at row index
equal to the multiplier index. -/
def mkJumpMatrices (env : Env) (fullyRedundant : Bool)
    (c : List (List (Nat × Nat))) : List SparseMat :=
  (List.range env.mapper.numPatches).map fun p =>
    { rows := numLagrangeMult fullyRedundant c
      cols := env.mapper.localFreeSize p
      entries := (emitRows fullyRedundant c).enum.flatMap fun mr =>
        rowEntries p mr.1 mr.2 }

/-- The coupling groups actually used by `computeJumpMatrices`: the built
groups, with corner groups purged when `excludeCorners` is set. -/
def couplingOf (env : Env) (excludeCorners : Bool) : List (List (Nat × Nat)) :=
  if excludeCorners then purgeCorners env (buildCoupling env) else buildCoupling env

/-- Embeds `computeJumpMatrices` (gsIetiMapper.hpp:474-574).  Guards: the
mapper must be initialized and the jump matrices not yet computed
(`SequencingError`); every group must have more than one occurrence unless
`excludeCorners` is set (`InternalInvariantViolation`); finally the realized
multiplier count must equal the theoretical one
(`InternalInvariantViolation`). -/
def computeJumpMatrices (env : Env) (s : IetiState)
    (fullyRedundant excludeCorners : Bool) : Except IetiError IetiState :=
  if s.status &&& 1 = 0 then
    .error (.sequencing "the class has not been initialized")
  else if s.status &&& 4 ≠ 0 then
    .error (.sequencing "this function has already been called")
  else
    let coupling := couplingOf env excludeCorners
    if (coupling.all fun g => decide (1 < g.length) || excludeCorners) = false then
      .error (.invariant "found a coupled dof that is not coupled to any other dof")
    else if ((emitRows fullyRedundant coupling).length : Int) =
        numLagrangeMult fullyRedundant coupling then
      .ok { s with status := s.status ||| 4
                   jumpMatrices := some (mkJumpMatrices env fullyRedundant coupling) }
    else
      .error (.invariant "realized multiplier count does not match the theoretical one")

/-- The record collected per free corner occurrence in `cornersAsPrimals`
(the `dof_helper` of gsIetiMapper.hpp:180-189). -/
structure DofHelper where
  globalIndex : Nat
  patch : Nat
  localIndex : Nat
deriving DecidableEq, Repr

/-- Corner tuples collected by `cornersAsPrimals` (gsIetiMapper.hpp:200-238):
for every patch and corner whose global image is free, either the corner
itself or (if artificial dofs are present) one tuple per pre-image of its
global index. -/
def collectCorners (env : Env) (art : Bool) : List DofHelper :=
  (List.range env.mapper.numPatches).flatMap fun k =>
    (env.cornersOf k).flatMap fun idx =>
      let g := env.mapper.index idx k
      if env.mapper.isFreeIndex g then
        if art then
          (env.mapper.preImage g).map fun pi =>
            { globalIndex := g, patch := pi.1
              localIndex := env.mapper.localIndex pi.1 pi.2 }
        else
          [{ globalIndex := g, patch := k
             localIndex := env.mapper.localIndex k idx }]
      else []

/-- The data-construction loop of `cornersAsPrimals` (gsIetiMapper.hpp:243-262)
over the sorted tuple list: `last` is the previous global index (`-1`
initially), `c` the primal-dof counter; each tuple emits a unit constraint row
for its patch tagged with the current primal id `c1 - 1`, the counter being
bumped whenever the global index changes. -/
def processCorners : Int → Nat → List DofHelper → Nat × List (Nat × SparseVec × Int)
  | _, c, [] => (c, [])
  | last, c, t :: ts =>
    let c1 := if last = (t.globalIndex : Int) then c else c + 1
    let r := processCorners (t.globalIndex : Int) c1 ts
    (r.1, (t.patch, [(t.localIndex, (1 : ℤ))], (c1 : Int) - 1) :: r.2)

/-- The collected corner tuples after the `std::sort` by global index
(gsIetiMapper.hpp:241), realized by insertion sort (a valid `std::sort`
outcome, as the comparator only inspects the global index). -/
def sortedCorners (env : Env) (s : IetiState) : List DofHelper :=
  List.insertionSort (fun a b : DofHelper => a.globalIndex ≤ b.globalIndex)
    (collectCorners env (decide (s.status &&& 2 ≠ 0)))

/-- Embeds `cornersAsPrimals` (gsIetiMapper.hpp:191-264): phase guards, corner
collection, sort, and the primal-id assignment loop.  The per-patch pushes
are the emitted list filtered by patch, in emission order. -/
def cornersAsPrimals (env : Env) (s : IetiState) : Except IetiError IetiState :=
  if s.status &&& 1 = 0 then
    .error (.sequencing "the class has not been initialized")
  else if s.status &&& 8 ≠ 0 then
    .error (.sequencing "this function has already been called")
  else
    let r := processCorners (-1) s.nPrimalDofs (sortedCorners env s)
    .ok { s with
          status := s.status ||| 8
          nPrimalDofs := r.1
          primalConstraints := (List.range s.primalConstraints.length).map fun k =>
            s.primalConstraints.getD k [] ++
              ((r.2.filter fun e => e.1 = k).map fun e => (e.2.1, e.2.2)) }

/-- The strict comparison of `constr_helper::operator<`
(gsIetiMapper.hpp:300-324) restricted to equal lengths: the first differing
position decides. -/
def firstDiffLt : List Nat → List Nat → Bool
  | a :: as, b :: bs => if a ≠ b then decide (a < b) else firstDiffLt as bs
  | _, _ => false

/-- `constr_helper::operator<`: signatures are compared by length first, then
by the first differing element. -/
def sigLt (a b : List Nat) : Bool :=
  if a.length ≠ b.length then decide (a.length < b.length) else firstDiffLt a b

/-- One weighted-average constraint delivered by the external assembly
collaborator for a component piece: the owning patch and the (already
normalized) sparse row over that patch's local free dofs.  Modelled from the
spec: `assembleAverage` delegates to the external `gsGenericAssembler`, so
the assembled rows are inputs here. -/
structure AvgConstraint where
  patch : Nat
  vec : SparseVec
deriving DecidableEq, Repr

/-- The `constr_helper` record of gsIetiMapper.hpp:300-324: signature (sorted
global support indices), constraint row, patch. -/
structure ConstrHelper where
  globalIndices : List Nat
  vec : SparseVec
  patch : Nat
deriving DecidableEq, Repr

/-- Inverse of the finalized local mapper of patch `k`
(`inverseOnPatch`): the patch dof whose local free index is `r`. -/
def DofMapper.inverseLocal (m : DofMapper) (k r : Nat) : Nat :=
  (((List.range (m.patchSize k)).filter fun i =>
    m.localFree k i && (m.localIndex k i == r)).headD 0)

/-- Builds the `constr_helper` for one assembled row
(gsIetiMapper.hpp:355-373): the signature is the sorted list of global
indices of the row's support. -/
def mkConstrHelper (env : Env) (k : Nat) (v : SparseVec) : ConstrHelper :=
  { patch := k
    vec := v
    globalIndices := List.insertionSort (· ≤ ·)
      (v.map fun e => env.mapper.index (env.mapper.inverseLocal k e.1) k) }

/-- The data-construction loop of `interfaceAveragesAsPrimals`
(gsIetiMapper.hpp:412-435) over one component's sorted constraints.  A run
start (`prev < current`) allocates a fresh primal id if the run continues
(`¬(current < next)`) or the component dimension equals the domain dimension,
and otherwise ignores the constraint; every non-ignored constraint is pushed
with the current primal id `c1 - 1`. -/
def processAvg (dimEq : Bool) :
    Option (List Nat) → Nat → List ConstrHelper → Nat × List (Nat × SparseVec × Int)
  | _, c, [] => (c, [])
  | prev, c, t :: ts =>
    let runStart := match prev with
      | none => true
      | some p => sigLt p t.globalIndices
    let ci : Nat × Bool :=
      if runStart then
        if (match ts with
            | [] => false
            | u :: _ => !sigLt t.globalIndices u.globalIndices) || dimEq then
          (c + 1, false)
        else (c, true)
      else (c, false)
    let r := processAvg dimEq (some t.globalIndices) ci.1 ts
    (r.1, if ci.2 then r.2 else (t.patch, t.vec, (ci.1 : Int) - 1) :: r.2)

/-- Embeds `interfaceAveragesAsPrimals` (gsIetiMapper.hpp:326-441) for the
path without artificial dofs.  The geometry's components of dimension `d` and
the external assembler's average rows are abstracted as the `components`
input (each component tagged with its dimension); rows that are entirely zero
are discarded before the signature is built.  `std::sort` by the
`constr_helper` comparator is realized by insertion sort.
`avgComponentStep` is the body of the loop over components
(gsIetiMapper.hpp:345-440) for one component. -/
def avgComponentStep (env : Env) (d : Nat) (st : IetiState)
    (comp : Nat × List AvgConstraint) : IetiState :=
  if comp.1 = d then
    let sorted := List.insertionSort
      (fun a b : ConstrHelper => sigLt b.globalIndices a.globalIndices = false)
      ((comp.2.filter fun a => a.vec ≠ []).map fun a =>
        mkConstrHelper env a.patch a.vec)
    let r := processAvg (decide (env.basis.dim = d)) none st.nPrimalDofs sorted
    { st with
      nPrimalDofs := r.1
      primalConstraints := (List.range st.primalConstraints.length).map fun k =>
        st.primalConstraints.getD k [] ++
          ((r.2.filter fun e => e.1 = k).map fun e => (e.2.1, e.2.2)) }
  else st

/-- Embeds `interfaceAveragesAsPrimals` (gsIetiMapper.hpp:326-441): the phase
and dimension guards, then a fold of `avgComponentStep` over all components,
after setting the per-dimension status flag `1 <<< (3+d)`. -/
def interfaceAveragesAsPrimals (env : Env) (s : IetiState) (d : Nat)
    (components : List (Nat × List AvgConstraint)) : Except IetiError IetiState :=
  if s.status &&& 1 = 0 then
    .error (.sequencing "the class has not been initialized")
  else if d = 0 then
    .error (.config "cannot handle corners")
  else if env.basis.dim < d then
    .error (.config "interfaces cannot have larger dimension than the considered object")
  else if s.status &&& (1 <<< (3 + d)) ≠ 0 then
    .error (.sequencing "this function has already been called for this dimension")
  else
    .ok <| components.foldl (avgComponentStep env d)
      { s with status := s.status ||| (1 <<< (3 + d)) }

/-- One invocation of a primal-constraint builder, for stating properties of
arbitrary builder sequences. -/
inductive BuilderCall where
  | corners (env : Env)
  | interfaceAvg (env : Env) (d : Nat) (components : List (Nat × List AvgConstraint))
  | custom (data : List (Nat × SparseVec))

/-- Runs one builder call on a state. -/
def runBuilder (s : IetiState) : BuilderCall → Except IetiError IetiState
  | .corners env => cornersAsPrimals env s
  | .interfaceAvg env d comps => interfaceAveragesAsPrimals env s d comps
  | .custom data => customPrimalConstraints s data

/-- Runs a sequence of builder calls, stopping at the first error. -/
def runBuilders (s : IetiState) : List BuilderCall → Except IetiError IetiState
  | [] => .ok s
  | c :: cs =>
    match runBuilder s c with
    | .ok s' => runBuilders s' cs
    | .error e => .error e

/-! ### Concrete example instances -/

/-- Two 1D patches of two dofs each, sharing one coupled dof (global index 2);
no eliminated and no artificial dofs. -/
def env2 : Env :=
  { mapper := { patchDofs := [[0, 2], [2, 1]], freeSize := 3, coupledSize := 1 }
    basis := { sizes := [2, 2], corners := [[0, 1], [0, 1]], dim := 1 } }

/-- Three 1D patches, all sharing the coupled dof with global index 3. -/
def env3 : Env :=
  { mapper := { patchDofs := [[0, 3], [3, 1], [3, 2]], freeSize := 4, coupledSize := 1 }
    basis := { sizes := [2, 2], corners := [[0, 1], [0, 1], [0, 1]], dim := 1 } }

/-! ### General helper lemmas -/

lemma list_sum_map_range (f : Nat → Nat) (n : Nat) :
    ((List.range n).map f).sum = ∑ i ∈ Finset.range n, f i := by
  induction n with
  | zero => simp
  | succ n ih =>
    rw [List.range_succ, List.map_append, List.sum_append, Finset.sum_range_succ, ih]
    simp

lemma length_filter_range (p : Nat → Bool) (n : Nat) :
    ((List.range n).filter p).length = ∑ i ∈ Finset.range n, if p i then 1 else 0 := by
  induction n with
  | zero => simp
  | succ n ih =>
    rw [List.range_succ, List.filter_append, List.length_append, Finset.sum_range_succ, ih]
    cases hp : p n <;> simp [List.filter, hp]

/-! ### Claim C7 -/

lemma localFreeSize_as_sum (m : DofMapper) (k : Nat) :
    m.localFreeSize k
      = ∑ i ∈ Finset.range (m.patchSize k), if m.index i k < m.freeSize then 1 else 0 := by
  rw [DofMapper.localFreeSize, Nat.count_eq_card_filter_range, Finset.card_filter]
  exact Finset.sum_congr rfl fun i _ => by simp [DofMapper.localFree]

lemma preImage_length_as_sum (m : DofMapper) (g : Nat) :
    (m.preImage g).length
      = ∑ k ∈ Finset.range m.numPatches,
          ∑ i ∈ Finset.range (m.patchSize k), if m.index i k = g then 1 else 0 := by
  rw [DofMapper.preImage, List.length_flatMap, list_sum_map_range]
  refine Finset.sum_congr rfl fun k _ => ?_
  simp only [Function.comp, List.length_map]
  rw [length_filter_range]
  exact Finset.sum_congr rfl fun i _ => by simp

lemma totalLocalFree_eq_preImage_sum (m : DofMapper) :
    ((List.range m.numPatches).map m.localFreeSize).sum
      = ((List.range m.freeSize).map fun g => (m.preImage g).length).sum := by
  rw [list_sum_map_range, list_sum_map_range]
  calc ∑ k ∈ Finset.range m.numPatches, m.localFreeSize k
      = ∑ k ∈ Finset.range m.numPatches, ∑ i ∈ Finset.range (m.patchSize k),
          if m.index i k < m.freeSize then 1 else 0 :=
        Finset.sum_congr rfl fun k _ => localFreeSize_as_sum m k
    _ = ∑ k ∈ Finset.range m.numPatches, ∑ i ∈ Finset.range (m.patchSize k),
          ∑ g ∈ Finset.range m.freeSize, if m.index i k = g then 1 else 0 := by
        refine Finset.sum_congr rfl fun k _ => Finset.sum_congr rfl fun i _ => ?_
        rw [Finset.sum_ite_eq (Finset.range m.freeSize) (m.index i k) fun _ => 1]
        simp [Finset.mem_range]
    _ = ∑ k ∈ Finset.range m.numPatches, ∑ g ∈ Finset.range m.freeSize,
          ∑ i ∈ Finset.range (m.patchSize k), if m.index i k = g then 1 else 0 :=
        Finset.sum_congr rfl fun k _ => Finset.sum_comm
    _ = ∑ g ∈ Finset.range m.freeSize, ∑ k ∈ Finset.range m.numPatches,
          ∑ i ∈ Finset.range (m.patchSize k), if m.index i k = g then 1 else 0 :=
        Finset.sum_comm
    _ = ∑ g ∈ Finset.range m.freeSize, (m.preImage g).length :=
        Finset.sum_congr rfl fun g _ => (preImage_length_as_sum m g).symm

/-- Claim C7, counterexample to the second half as stated: `env2` has no
artificial dofs (every declared patch size equals the true basis size), yet
the sum of the local free sizes is `4` while the global free-dof count is
`3`, because the coupled dof is counted locally on both patches. -/
theorem C7_sum_counterexample :
    (init env2).isOk = true ∧
    (∀ k, k < env2.mapper.numPatches → env2.mapper.patchSize k = env2.basisSize k) ∧
    ((List.range env2.mapper.numPatches).map env2.mapper.localFreeSize).sum
      ≠ env2.mapper.freeSize := by decide

/-- Claim C7 (amended): after `init`, every local free size is bounded by the
declared patch size; and the sum over all subdomains of the local free sizes
equals the global free-dof count counted with pre-image multiplicity
(each free global index counted once per pre-image, so coupled dofs count
once per sharing subdomain).  In particular, when every free global index has
exactly one pre-image, the sum equals the global free-dof count. -/
theorem C7_local_free_sizes (env : Env) (s : IetiState) (h : init env = .ok s) :
    (∀ k, k < env.mapper.numPatches →
      env.mapper.localFreeSize k ≤ env.mapper.patchSize k) ∧
    ((List.range env.mapper.numPatches).map env.mapper.localFreeSize).sum
      = ((List.range env.mapper.freeSize).map fun g => (env.mapper.preImage g).length).sum ∧
    ((∀ g, g < env.mapper.freeSize → (env.mapper.preImage g).length = 1) →
      ((List.range env.mapper.numPatches).map env.mapper.localFreeSize).sum
        = env.mapper.freeSize) := by
  refine ⟨fun k _ => ?_, totalLocalFree_eq_preImage_sum env.mapper, fun hu => ?_⟩
  · rw [DofMapper.localFreeSize, Nat.count_eq_card_filter_range]
    calc ((Finset.range (env.mapper.patchSize k)).filter _).card
        ≤ (Finset.range (env.mapper.patchSize k)).card := Finset.card_filter_le _ _
      _ = env.mapper.patchSize k := Finset.card_range _
  · rw [totalLocalFree_eq_preImage_sum env.mapper]
    rw [List.map_congr_left (fun g hg => hu g (List.mem_range.mp hg))]
    simp

/-- Witness for `C7_local_free_sizes` at the concrete instance `env2`. -/
theorem C7_local_free_sizes_witness :
    (∀ k, k < env2.mapper.numPatches →
      env2.mapper.localFreeSize k ≤ env2.mapper.patchSize k) ∧
    ((List.range env2.mapper.numPatches).map env2.mapper.localFreeSize).sum
      = ((List.range env2.mapper.freeSize).map fun g => (env2.mapper.preImage g).length).sum ∧
    ((∀ g, g < env2.mapper.freeSize → (env2.mapper.preImage g).length = 1) →
      ((List.range env2.mapper.numPatches).map env2.mapper.localFreeSize).sum
        = env2.mapper.freeSize) :=
  C7_local_free_sizes env2 { status := 1, nPrimalDofs := 0
                             primalConstraints := [[], []], jumpMatrices := none }
    (by decide)

/-! ### Status-bit helper lemmas -/

lemma and_pow_ne_zero_iff (x i : Nat) : x &&& 2 ^ i ≠ 0 ↔ x.testBit i = true := by
  rw [Nat.and_two_pow]
  cases h : x.testBit i <;> simp [h, (Nat.two_pow_pos i).ne']

lemma or_pow_and_pow_ne_zero (x i : Nat) : (x ||| 2 ^ i) &&& 2 ^ i ≠ 0 := by
  rw [and_pow_ne_zero_iff, Nat.testBit_or, Nat.testBit_two_pow_self]
  simp

lemma or_preserves_bit_one (x y : Nat) (h : x &&& 1 ≠ 0) : (x ||| y) &&& 1 ≠ 0 := by
  have h1 : (1 : Nat) = 2 ^ 0 := rfl
  rw [h1] at h ⊢
  rw [and_pow_ne_zero_iff] at h ⊢
  rw [Nat.testBit_or, h]
  simp

lemma avgFold_status (env : Env) (d : Nat) :
    ∀ (comps : List (Nat × List AvgConstraint)) (st : IetiState),
      (comps.foldl (avgComponentStep env d) st).status = st.status := by
  intro comps
  induction comps with
  | nil => intro st; rfl
  | cons c cs ih =>
    intro st
    rw [List.foldl_cons, ih]
    by_cases h : c.1 = d <;> simp [avgComponentStep, h]

/-! ### Claim C5 -/

/-- Claim C5 (amended): every phase other than `init` is rejected with a
`SequencingError` when the mapper has not been initialized, and the one-shot
phases `cornersAsPrimals`, `interfaceAveragesAsPrimals` (per dimension `d`)
and `computeJumpMatrices` are rejected with a `SequencingError` when invoked
a second time (the guards run before any mutation: an erroneous call returns
only the error and leaves no partial state).  `init` itself is *not* one-shot:
it reads no phase flag and resets the state, see `C5_init_twice_counterexample`. -/
theorem C5_phase_guards :
    (∀ (env : Env) (s : IetiState), s.status &&& 1 = 0 →
      (∀ d comps, interfaceAveragesAsPrimals env s d comps
        = .error (.sequencing "the class has not been initialized")) ∧
      cornersAsPrimals env s = .error (.sequencing "the class has not been initialized") ∧
      (∀ fr ec, computeJumpMatrices env s fr ec
        = .error (.sequencing "the class has not been initialized")) ∧
      (∀ data, customPrimalConstraints s data
        = .error (.sequencing "the class has not been initialized")) ∧
      (∀ p, skeletonDofs env s p
        = .error (.sequencing "the class has not been initialized")) ∧
      (∀ lc, constructGlobalSolutionFromLocalSolutions env s lc
        = .error (.sequencing "the class has not been initialized"))) ∧
    (∀ (env : Env) (s s' : IetiState) (env' : Env),
      cornersAsPrimals env s = .ok s' →
      cornersAsPrimals env' s'
        = .error (.sequencing "this function has already been called")) ∧
    (∀ (env : Env) (s s' : IetiState) fr ec (env' : Env) fr' ec',
      computeJumpMatrices env s fr ec = .ok s' →
      computeJumpMatrices env' s' fr' ec'
        = .error (.sequencing "this function has already been called")) ∧
    (∀ (env : Env) (s s' : IetiState) d comps comps',
      interfaceAveragesAsPrimals env s d comps = .ok s' →
      interfaceAveragesAsPrimals env s' d comps'
        = .error (.sequencing "this function has already been called for this dimension")) := by
  refine ⟨?_, ?_, ?_, ?_⟩
  · intro env s h
    refine ⟨fun d comps => ?_, ?_, fun fr ec => ?_, fun data => ?_, fun p => ?_, fun lc => ?_⟩
    · simp [interfaceAveragesAsPrimals, h]
    · simp [cornersAsPrimals, h]
    · simp [computeJumpMatrices, h]
    · simp [customPrimalConstraints, h]
    · simp [skeletonDofs, h]
    · simp [constructGlobalSolutionFromLocalSolutions, h]
  · intro env s s' env' h
    rw [cornersAsPrimals] at h
    by_cases h1 : s.status &&& 1 = 0
    · rw [if_pos h1] at h; cases h
    rw [if_neg h1] at h
    by_cases h8 : s.status &&& 8 ≠ 0
    · rw [if_pos h8] at h; cases h
    rw [if_neg h8] at h
    injection h with h
    have hs' : s'.status = s.status ||| 8 := by rw [← h]
    have hbit1 : ¬ s'.status &&& 1 = 0 := by
      rw [hs']
      exact or_preserves_bit_one _ _ h1
    have hbit8 : s'.status &&& 8 ≠ 0 := by
      rw [hs']
      exact or_pow_and_pow_ne_zero s.status 3
    rw [cornersAsPrimals, if_neg hbit1, if_pos hbit8]
  · intro env s s' fr ec env' fr' ec' h
    rw [computeJumpMatrices] at h
    by_cases h1 : s.status &&& 1 = 0
    · rw [if_pos h1] at h; cases h
    rw [if_neg h1] at h
    by_cases h4 : s.status &&& 4 ≠ 0
    · rw [if_pos h4] at h; cases h
    rw [if_neg h4] at h
    by_cases hg : ((couplingOf env ec).all fun g => decide (1 < g.length) || ec) = false
    · rw [if_pos hg] at h; cases h
    rw [if_neg hg] at h
    by_cases hm : ((emitRows fr (couplingOf env ec)).length : Int)
        = numLagrangeMult fr (couplingOf env ec)
    · rw [if_pos hm] at h
      injection h with h
      have hs' : s'.status = s.status ||| 4 := by rw [← h]
      have hbit1 : ¬ s'.status &&& 1 = 0 := by
        rw [hs']; exact or_preserves_bit_one _ _ h1
      have hbit4 : s'.status &&& 4 ≠ 0 := by
        rw [hs']; exact or_pow_and_pow_ne_zero s.status 2
      rw [computeJumpMatrices, if_neg hbit1, if_pos hbit4]
    · rw [if_neg hm] at h; cases h
  · intro env s s' d comps comps' h
    rw [interfaceAveragesAsPrimals] at h
    by_cases h1 : s.status &&& 1 = 0
    · rw [if_pos h1] at h; cases h
    rw [if_neg h1] at h
    by_cases hd : d = 0
    · rw [if_pos hd] at h; cases h
    rw [if_neg hd] at h
    by_cases hdim : env.basis.dim < d
    · rw [if_pos hdim] at h; cases h
    rw [if_neg hdim] at h
    by_cases hflag : s.status &&& (1 <<< (3 + d)) ≠ 0
    · rw [if_pos hflag] at h; cases h
    rw [if_neg hflag] at h
    injection h with h
    have hs' : s'.status = s.status ||| (1 <<< (3 + d)) := by
      rw [← h, avgFold_status]
    have hbit1 : ¬ s'.status &&& 1 = 0 := by
      rw [hs']; exact or_preserves_bit_one _ _ h1
    have hbitf : s'.status &&& (1 <<< (3 + d)) ≠ 0 := by
      rw [hs', Nat.one_shiftLeft]
      exact or_pow_and_pow_ne_zero s.status (3 + d)
    rw [interfaceAveragesAsPrimals, if_neg hbit1, if_neg hd, if_neg hdim, if_pos hbitf]

/-- Witness for `C5_phase_guards`: concrete instances of its parts.  The
uninitialized state `⟨0,0,[],none⟩` is rejected by every phase, and a second
corner-primal or jump-matrix call on `env2` after a successful one is
rejected. -/
theorem C5_phase_guards_witness :
    cornersAsPrimals env2 { status := 0, nPrimalDofs := 0, primalConstraints := [], jumpMatrices := none }
      = .error (.sequencing "the class has not been initialized") ∧
    cornersAsPrimals env2
        { status := 9, nPrimalDofs := 3
          primalConstraints := [[([(0, 1)], 0), ([(1, 1)], 2)], [([(1, 1)], 1), ([(0, 1)], 2)]]
          jumpMatrices := none }
      = .error (.sequencing "this function has already been called") := by
  constructor
  · exact (C5_phase_guards.1 env2 _ (by decide)).2.1
  · exact C5_phase_guards.2.1 env2
      { status := 1, nPrimalDofs := 0, primalConstraints := [[], []], jumpMatrices := none }
      _ env2 (by decide)

/-- Claim C5, counterexample to the `init`-is-one-shot part: running `init`
twice in a row succeeds (the source's `init` checks no phase flag and simply
resets all members), instead of failing with a `SequencingError`. -/
theorem C5_init_twice_counterexample :
    ((init env2).bind fun _ => init env2)
      = .ok { status := 1, nPrimalDofs := 0, primalConstraints := [[], []]
              jumpMatrices := none } := by decide

/-! ### Claim C8 -/

lemma processCorners_counter_mono (l : List DofHelper) :
    ∀ (last : Int) (c : Nat), c ≤ (processCorners last c l).1 := by
  induction l with
  | nil => intro last c; exact Nat.le_refl c
  | cons t ts ih =>
    intro last c
    rw [processCorners]
    dsimp only
    refine Nat.le_trans ?_ (ih (t.globalIndex : Int) _)
    split <;> omega

lemma processAvg_counter_mono (dimEq : Bool) (l : List ConstrHelper) :
    ∀ (prev : Option (List Nat)) (c : Nat), c ≤ (processAvg dimEq prev c l).1 := by
  induction l with
  | nil => intro prev c; exact Nat.le_refl c
  | cons t ts ih =>
    intro prev c
    rw [processAvg.eq_def]
    dsimp only
    refine Nat.le_trans ?_ (ih (some t.globalIndices) _)
    split
    · split <;> simp
    · exact Nat.le_refl c

lemma avgFold_counter_mono (env : Env) (d : Nat) :
    ∀ (comps : List (Nat × List AvgConstraint)) (st : IetiState),
      st.nPrimalDofs ≤ (comps.foldl (avgComponentStep env d) st).nPrimalDofs := by
  intro comps
  induction comps with
  | nil => intro st; exact Nat.le_refl _
  | cons c cs ih =>
    intro st
    rw [List.foldl_cons]
    refine Nat.le_trans ?_ (ih _)
    by_cases h : c.1 = d
    · simp only [avgComponentStep, h, if_pos]
      exact processAvg_counter_mono _ _ _ _
    · simp [avgComponentStep, h]

lemma runBuilder_counter_mono (s : IetiState) (c : BuilderCall) (s' : IetiState)
    (h : runBuilder s c = .ok s') : s.nPrimalDofs ≤ s'.nPrimalDofs := by
  cases c with
  | corners env =>
    rw [runBuilder, cornersAsPrimals] at h
    by_cases h1 : s.status &&& 1 = 0
    · rw [if_pos h1] at h; cases h
    rw [if_neg h1] at h
    by_cases h8 : s.status &&& 8 ≠ 0
    · rw [if_pos h8] at h; cases h
    rw [if_neg h8] at h
    injection h with h
    rw [← h]
    exact processCorners_counter_mono _ _ _
  | interfaceAvg env d comps =>
    rw [runBuilder, interfaceAveragesAsPrimals] at h
    by_cases h1 : s.status &&& 1 = 0
    · rw [if_pos h1] at h; cases h
    rw [if_neg h1] at h
    by_cases hd : d = 0
    · rw [if_pos hd] at h; cases h
    rw [if_neg hd] at h
    by_cases hdim : env.basis.dim < d
    · rw [if_pos hdim] at h; cases h
    rw [if_neg hdim] at h
    by_cases hflag : s.status &&& (1 <<< (3 + d)) ≠ 0
    · rw [if_pos hflag] at h; cases h
    rw [if_neg hflag] at h
    injection h with h
    rw [← h]
    exact avgFold_counter_mono env d comps
      { s with status := s.status ||| 1 <<< (3 + d) }
  | custom data =>
    rw [runBuilder, customPrimalConstraints] at h
    by_cases h1 : s.status &&& 1 = 0
    · rw [if_pos h1] at h; cases h
    rw [if_neg h1] at h
    injection h with h
    rw [← h]
    exact Nat.le_succ _

/-- Claim C8: the primal-dof counter (the single `m_nPrimalDofs` field shared
by all three builders) never decreases: across one builder call, and along
any sequence of corner-primal, interface-average and custom builder calls,
the reported total primal-dof count after each successful call is at least
its value before. -/
theorem C8_primal_counter_monotone :
    (∀ (s : IetiState) (c : BuilderCall) (s' : IetiState),
      runBuilder s c = .ok s' → s.nPrimalDofs ≤ s'.nPrimalDofs) ∧
    (∀ (calls : List BuilderCall) (s s' : IetiState),
      runBuilders s calls = .ok s' → s.nPrimalDofs ≤ s'.nPrimalDofs) := by
  refine ⟨runBuilder_counter_mono, ?_⟩
  intro calls
  induction calls with
  | nil =>
    intro s s' h
    rw [runBuilders] at h
    cases h
    exact Nat.le_refl _
  | cons c cs ih =>
    intro s s' h
    rw [runBuilders] at h
    cases hc : runBuilder s c with
    | ok s1 =>
      rw [hc] at h
      exact Nat.le_trans (runBuilder_counter_mono s c s1 hc) (ih s1 s' h)
    | error e => rw [hc] at h; cases h

/-- Witness for `C8_primal_counter_monotone`: a concrete builder sequence on
`env2` (corner primals, then a custom constraint) along which the counter
grows from `0`. -/
theorem C8_primal_counter_monotone_witness :
    (0 : Nat) ≤ (3 : Nat) ∧ (0 : Nat) ≤ (4 : Nat) := by
  constructor
  · exact C8_primal_counter_monotone.1
      { status := 1, nPrimalDofs := 0, primalConstraints := [[], []], jumpMatrices := none }
      (.corners env2)
      { status := 9, nPrimalDofs := 3
        primalConstraints := [[([(0, 1)], 0), ([(1, 1)], 2)], [([(1, 1)], 1), ([(0, 1)], 2)]]
        jumpMatrices := none }
      (by decide)
  · exact C8_primal_counter_monotone.2
      [.corners env2, .custom [(0, [(0, 5)])]]
      { status := 1, nPrimalDofs := 0, primalConstraints := [[], []], jumpMatrices := none }
      { status := 9, nPrimalDofs := 4
        primalConstraints :=
          [[([(0, 1)], 0), ([(1, 1)], 2), ([(0, 5)], 3)], [([(1, 1)], 1), ([(0, 1)], 2)]]
        jumpMatrices := none }
      (by decide)

/-! ### Claim C9 -/

/-- Claim C9, code-bug evaluation.  On `env2` the only coupling group is the
shared corner dof; with `excludeCorners` the purge empties it, which the spec
says is not an error.  In fully-redundant mode the call indeed succeeds with
zero multipliers, but in minimal mode the theoretical count is computed in
signed arithmetic as `n - 1 = -1` for the emptied group while `0` rows are
realized, so the final consistency assert fires: the source raises an
`InternalInvariantViolation` on a path its own earlier assert
(`n>1 || excludeCorners`) explicitly admits. -/
theorem C9_excludeCorners_minimal_mode_bug :
    purgeCorners env2 (buildCoupling env2) = [[]] ∧
    numLagrangeMult false (purgeCorners env2 (buildCoupling env2)) = -1 ∧
    (emitRows false (purgeCorners env2 (buildCoupling env2))).length = 0 ∧
    ((init env2).bind fun s => computeJumpMatrices env2 s false true)
      = .error (.invariant "realized multiplier count does not match the theoretical one") ∧
    ((init env2).bind fun s => computeJumpMatrices env2 s true true).isOk = true ∧
    numLagrangeMult true (purgeCorners env2 (buildCoupling env2)) = 0 := by decide

/-! ### Claims C6 and C10: global-solution reconstruction -/

lemma mem_of_getLast?_eq {α : Type} (l : List α) (a : α) (h : l.getLast? = some a) :
    a ∈ l := by
  induction l using List.reverseRecOn with
  | nil => cases h
  | append_singleton l x ih =>
    rw [List.getLast?_concat] at h
    cases h
    simp

/-- Evaluating an assignment fold at one coordinate: the value is that of the
last processed element writing to this coordinate, and the initial value if
none does. -/
lemma foldl_update_eval {α : Type} (P : α → Bool) (idx : α → Nat) (val : α → ℤ)
    (g : Nat) (L : List α) (r0 : Nat → ℤ) :
    (L.foldl (fun r x => if P x then Function.update r (idx x) (val x) else r) r0) g
      = match (L.filter fun x => P x && (idx x == g)).getLast? with
        | some x => val x
        | none => r0 g := by
  induction L using List.reverseRecOn with
  | nil => rfl
  | append_singleton l x ih =>
    rw [List.foldl_append, List.foldl_cons, List.foldl_nil, List.filter_append]
    by_cases hP : P x = true
    · by_cases hidx : idx x = g
      · have hcond : (P x && (idx x == g)) = true := by simp [hP, hidx]
        have hfil : List.filter (fun x => P x && (idx x == g)) [x] = [x] := by
          simp [List.filter, hcond]
        rw [hfil, List.getLast?_concat, if_pos hP, Function.update_apply, if_pos hidx.symm]
      · have hcond : (P x && (idx x == g)) = false := by simp [hidx]
        have hfil : List.filter (fun x => P x && (idx x == g)) [x] = [] := by
          simp [List.filter, hcond]
        rw [hfil, List.append_nil, if_pos hP, Function.update_apply,
          if_neg (fun hgx => hidx hgx.symm)]
        exact ih
    · have hPf : P x = false := by
        revert hP; cases P x <;> simp
      have hcond : (P x && (idx x == g)) = false := by
        rw [hPf, Bool.false_and]
      have hfil : List.filter (fun x => P x && (idx x == g)) [x] = [] := by
        simp [List.filter, hcond]
      rw [hfil, List.append_nil, if_neg hP]
      exact ih

lemma mem_constructPairs (env : Env) (k i : Nat) :
    (k, i) ∈ constructPairs env ↔ k < env.mapper.numPatches ∧ i < env.basisSize k := by
  rw [constructPairs, List.mem_flatMap]
  constructor
  · rintro ⟨a, ha, hm⟩
    rw [List.mem_map] at hm
    obtain ⟨b, hb, hba⟩ := hm
    cases hba
    exact ⟨List.mem_range.mp ha, List.mem_range.mp hb⟩
  · rintro ⟨hk, hi⟩
    exact ⟨k, List.mem_range.mpr hk,
      List.mem_map.mpr ⟨i, List.mem_range.mpr hi, rfl⟩⟩

/-- Claim C6: round trip and last-writer-wins of
`constructGlobalSolutionFromLocalSolutions`.  Given local contributions split
consistently from a global vector `v` (every free true-basis dof carries the
value of its global image, so coupled dofs agree across all owners), the
reconstruction returns `v` on every free global index; the well-formedness
hypothesis `hsurj` states that every free global dof is realized by some true
basis function (spec 4.2 presupposes a canonical owner for every free dof).
In general the reconstruction resolves every global dof by plain assignment
in traversal order, so the value is that of the *last* subdomain processed
that owns it, not an average. -/
theorem C6_roundtrip_last_writer (env : Env) (s : IetiState)
    (lc : Nat → Nat → ℤ) (v : Nat → ℤ)
    (hst : s.status &&& 1 ≠ 0)
    (hsurj : ∀ g, g < env.mapper.freeSize → ∃ k, k < env.mapper.numPatches ∧
      ∃ i, i < env.basisSize k ∧ env.mapper.index i k = g)
    (hsplit : ∀ k, k < env.mapper.numPatches → ∀ i, i < env.basisSize k →
      env.mapper.index i k < env.mapper.freeSize →
      lc k (env.mapper.localIndex k i) = v (env.mapper.index i k)) :
    ∃ r, constructGlobalSolutionFromLocalSolutions env s lc = .ok r ∧
      (∀ g, g < env.mapper.freeSize → r g = v g) ∧
      (∀ (lc' : Nat → Nat → ℤ) (r' : Nat → ℤ) (g : Nat) (ki : Nat × Nat),
        constructGlobalSolutionFromLocalSolutions env s lc' = .ok r' →
        ((constructPairs env).filter fun p =>
            (env.mapper.localFree p.1 p.2 &&
              env.mapper.isFreeIndex (env.mapper.index p.2 p.1)) &&
            (env.mapper.index p.2 p.1 == g)).getLast? = some ki →
        r' g = lc' ki.1 (env.mapper.localIndex ki.1 ki.2)) := by
  have hdef : ∀ (lc' : Nat → Nat → ℤ),
      constructGlobalSolutionFromLocalSolutions env s lc'
        = .ok ((constructPairs env).foldl
            (fun r ki =>
              if env.mapper.localFree ki.1 ki.2 &&
                  env.mapper.isFreeIndex (env.mapper.index ki.2 ki.1) then
                Function.update r (env.mapper.index ki.2 ki.1)
                  (lc' ki.1 (env.mapper.localIndex ki.1 ki.2))
              else r)
            (fun _ => 0)) := by
    intro lc'
    rw [constructGlobalSolutionFromLocalSolutions, if_neg hst]
  refine ⟨_, hdef lc, ?_, ?_⟩
  · intro g hg
    rw [foldl_update_eval
      (fun ki : Nat × Nat => env.mapper.localFree ki.1 ki.2 &&
        env.mapper.isFreeIndex (env.mapper.index ki.2 ki.1))
      (fun ki : Nat × Nat => env.mapper.index ki.2 ki.1)
      (fun ki : Nat × Nat => lc ki.1 (env.mapper.localIndex ki.1 ki.2)) g]
    obtain ⟨k, hk, i, hi, hgi⟩ := hsurj g hg
    have hcond : ((fun ki : Nat × Nat => env.mapper.localFree ki.1 ki.2 &&
          env.mapper.isFreeIndex (env.mapper.index ki.2 ki.1)) (k, i) &&
        ((fun ki : Nat × Nat => env.mapper.index ki.2 ki.1) (k, i) == g)) = true := by
      simp only [DofMapper.localFree, DofMapper.isFreeIndex, hgi]
      simp [hg]
    have hmemf : (k, i) ∈ (constructPairs env).filter fun p =>
        ((fun ki : Nat × Nat => env.mapper.localFree ki.1 ki.2 &&
          env.mapper.isFreeIndex (env.mapper.index ki.2 ki.1)) p &&
        ((fun ki : Nat × Nat => env.mapper.index ki.2 ki.1) p == g)) :=
      List.mem_filter.mpr ⟨(mem_constructPairs env k i).mpr ⟨hk, hi⟩, hcond⟩
    have hne : ((constructPairs env).filter fun p =>
        ((fun ki : Nat × Nat => env.mapper.localFree ki.1 ki.2 &&
          env.mapper.isFreeIndex (env.mapper.index ki.2 ki.1)) p &&
        ((fun ki : Nat × Nat => env.mapper.index ki.2 ki.1) p == g))) ≠ [] :=
      List.ne_nil_of_mem hmemf
    cases hlast : ((constructPairs env).filter fun p =>
        ((fun ki : Nat × Nat => env.mapper.localFree ki.1 ki.2 &&
          env.mapper.isFreeIndex (env.mapper.index ki.2 ki.1)) p &&
        ((fun ki : Nat × Nat => env.mapper.index ki.2 ki.1) p == g))).getLast? with
    | none =>
      exact absurd (List.getLast?_eq_none_iff.mp hlast) hne
    | some x =>
      have hxmem := mem_of_getLast?_eq _ _ hlast
      have hxp := (List.mem_filter.mp hxmem).1
      have hxc := (List.mem_filter.mp hxmem).2
      obtain ⟨hxk, hxi⟩ := (mem_constructPairs env x.1 x.2).mp hxp
      have hxg : env.mapper.index x.2 x.1 = g := by
        simp only [Bool.and_eq_true, beq_iff_eq] at hxc
        exact hxc.2
      have hxfree : env.mapper.index x.2 x.1 < env.mapper.freeSize := hxg ▸ hg
      dsimp only
      rw [hsplit x.1 hxk x.2 hxi hxfree, hxg]
  · intro lc' r' g ki hok hlast
    rw [hdef lc'] at hok
    injection hok with hok
    rw [← hok]
    rw [foldl_update_eval
      (fun ki : Nat × Nat => env.mapper.localFree ki.1 ki.2 &&
        env.mapper.isFreeIndex (env.mapper.index ki.2 ki.1))
      (fun ki : Nat × Nat => env.mapper.index ki.2 ki.1)
      (fun ki : Nat × Nat => lc' ki.1 (env.mapper.localIndex ki.1 ki.2)) g, hlast]

/-- The initialized state produced by `init env2`, shared by several
witnesses. -/
def st1 : IetiState :=
  { status := 1, nPrimalDofs := 0, primalConstraints := [[], []], jumpMatrices := none }

/-- The restriction of the global vector `g ↦ g` to the local dofs of the two
patches of `env2`. -/
def lcSplit : Nat → Nat → ℤ := fun k r =>
  if k = 0 then (if r = 0 then 0 else 2) else (if r = 0 then 2 else 1)

/-- Witness for `C6_roundtrip_last_writer` on `env2`, splitting the global
vector `g ↦ g`. -/
theorem C6_roundtrip_last_writer_witness :
    ∃ r, constructGlobalSolutionFromLocalSolutions env2 st1 lcSplit = .ok r ∧
      (∀ g, g < env2.mapper.freeSize → r g = (g : ℤ)) := by
  obtain ⟨r, hok, hrt, _⟩ :=
    C6_roundtrip_last_writer env2 st1 lcSplit (fun g => (g : ℤ))
      (by decide) (by decide) (by decide)
  exact ⟨r, hok, hrt⟩

/-- A mapper with an artificial dof: patch `1` declares three local dofs, but
its true basis has only two; local dof `2` of patch `1` mirrors the dof with
global index `2`, whose canonical owner is patch `0`. -/
def envArt : Env :=
  { mapper := { patchDofs := [[1, 2], [1, 0, 2]], freeSize := 3, coupledSize := 2 }
    basis := { sizes := [2, 2], corners := [[0, 1], [0, 1]], dim := 1 } }

/-- Claim C10: noninterference of artificial dofs in reconstruction.  The
reconstruction reads, on each patch `k`, only the local free rows of the true
basis functions `i < basisSize k`; two contribution sets agreeing on those
rows give identical global vectors, whatever their values on artificial
rows. -/
theorem C10_artificial_noninterference (env : Env) (s : IetiState)
    (lc lc' : Nat → Nat → ℤ)
    (hst : s.status &&& 1 ≠ 0)
    (hagree : ∀ k, k < env.mapper.numPatches → ∀ i, i < env.basisSize k →
      env.mapper.localFree k i = true →
      lc k (env.mapper.localIndex k i) = lc' k (env.mapper.localIndex k i)) :
    ∃ r r', constructGlobalSolutionFromLocalSolutions env s lc = .ok r ∧
      constructGlobalSolutionFromLocalSolutions env s lc' = .ok r' ∧
      ∀ g, r g = r' g := by
  have hdef : ∀ (lc0 : Nat → Nat → ℤ),
      constructGlobalSolutionFromLocalSolutions env s lc0
        = .ok ((constructPairs env).foldl
            (fun r ki =>
              if env.mapper.localFree ki.1 ki.2 &&
                  env.mapper.isFreeIndex (env.mapper.index ki.2 ki.1) then
                Function.update r (env.mapper.index ki.2 ki.1)
                  (lc0 ki.1 (env.mapper.localIndex ki.1 ki.2))
              else r)
            (fun _ => 0)) := by
    intro lc0
    rw [constructGlobalSolutionFromLocalSolutions, if_neg hst]
  refine ⟨_, _, hdef lc, hdef lc', ?_⟩
  intro g
  rw [foldl_update_eval
    (fun ki : Nat × Nat => env.mapper.localFree ki.1 ki.2 &&
      env.mapper.isFreeIndex (env.mapper.index ki.2 ki.1))
    (fun ki : Nat × Nat => env.mapper.index ki.2 ki.1)
    (fun ki : Nat × Nat => lc ki.1 (env.mapper.localIndex ki.1 ki.2)) g]
  rw [foldl_update_eval
    (fun ki : Nat × Nat => env.mapper.localFree ki.1 ki.2 &&
      env.mapper.isFreeIndex (env.mapper.index ki.2 ki.1))
    (fun ki : Nat × Nat => env.mapper.index ki.2 ki.1)
    (fun ki : Nat × Nat => lc' ki.1 (env.mapper.localIndex ki.1 ki.2)) g]
  cases hlast : ((constructPairs env).filter fun p =>
      ((fun ki : Nat × Nat => env.mapper.localFree ki.1 ki.2 &&
        env.mapper.isFreeIndex (env.mapper.index ki.2 ki.1)) p &&
      ((fun ki : Nat × Nat => env.mapper.index ki.2 ki.1) p == g))).getLast? with
  | none => rfl
  | some x =>
    have hxmem := mem_of_getLast?_eq _ _ hlast
    have hxp := (List.mem_filter.mp hxmem).1
    have hxc := (List.mem_filter.mp hxmem).2
    obtain ⟨hxk, hxi⟩ := (mem_constructPairs env x.1 x.2).mp hxp
    have hxfree : env.mapper.localFree x.1 x.2 = true := by
      simp only [Bool.and_eq_true, beq_iff_eq] at hxc
      exact hxc.1.1
    exact hagree x.1 hxk x.2 hxi hxfree

/-- Witness for `C10_artificial_noninterference` on `envArt`: the two
contribution sets agree on the true-basis rows and differ on the artificial
row `2` of patch `1`. -/
theorem C10_artificial_noninterference_witness :
    ∃ r r', constructGlobalSolutionFromLocalSolutions envArt st1 (fun _ _ => 5) = .ok r ∧
      constructGlobalSolutionFromLocalSolutions envArt st1
        (fun k r => if k = 1 && r = 2 then 99 else 5) = .ok r' ∧
      ∀ g, r g = r' g :=
  C10_artificial_noninterference envArt st1 (fun _ _ => 5)
    (fun k r => if k = 1 && r = 2 then 99 else 5) (by decide) (by decide)

/-! ### Claim C1: jump-matrix row counts -/

lemma pairsOf_false (n : Nat) :
    pairsOf false n = (List.range' 1 (n - 1)).map fun j => (0, j) := by
  have h1 : List.range (if (false : Bool) then n - 1 else 1) = [0] := by
    norm_num [List.range_succ]
  rw [pairsOf, h1, List.flatMap_cons, List.flatMap_nil, List.append_nil]

lemma pairsOf_false_length (n : Nat) : (pairsOf false n).length = n - 1 := by
  rw [pairsOf_false, List.length_map, List.length_range']

lemma pairsOf_true_length (n : Nat) : (pairsOf true n).length = n * (n - 1) / 2 := by
  rw [pairsOf, List.length_flatMap]
  have hlen : (List.map (List.length ∘ fun j1 =>
      (List.range' (j1 + 1) (n - (j1 + 1))).map fun j2 => (j1, j2)) (List.range (n - 1)))
      = (List.range (n - 1)).map fun j1 => (n - 1) - j1 := by
    refine List.map_congr_left fun j1 hj1 => ?_
    simp only [Function.comp, List.length_map, List.length_range']
    omega
  rw [if_pos rfl, hlen, list_sum_map_range]
  have hrefl : ∑ j ∈ Finset.range (n - 1), ((n - 1) - j)
      = ∑ j ∈ Finset.range (n - 1), (j + 1) := by
    have := Finset.sum_range_reflect (fun i => i + 1) (n - 1)
    calc ∑ j ∈ Finset.range (n - 1), ((n - 1) - j)
        = ∑ j ∈ Finset.range (n - 1), ((n - 1 - 1 - j) + 1) := by
          refine Finset.sum_congr rfl fun j hj => ?_
          have := Finset.mem_range.mp hj
          omega
      _ = ∑ j ∈ Finset.range (n - 1), (j + 1) := this
  rw [hrefl]
  have hdouble : (∑ j ∈ Finset.range (n - 1), (j + 1)) * 2 = n * (n - 1) := by
    rw [Finset.sum_add_distrib, Finset.sum_const, Finset.card_range, smul_eq_mul, mul_one,
      Nat.add_mul, Finset.sum_range_id_mul_two]
    cases n with
    | zero => rfl
    | succ m =>
      simp only [Nat.succ_sub_one]
      cases m with
      | zero => rfl
      | succ k =>
        simp only [Nat.succ_sub_one]
        ring
  have h2 := hdouble
  generalize n * (n - 1) = K at h2 ⊢
  omega

lemma pairsOf_true_mem (n : Nat) (p : Nat × Nat) :
    p ∈ pairsOf true n ↔ p.1 < p.2 ∧ p.2 < n := by
  rw [pairsOf, if_pos rfl, List.mem_flatMap]
  constructor
  · rintro ⟨j1, hj1, hp⟩
    rw [List.mem_map] at hp
    obtain ⟨j2, hj2, hpe⟩ := hp
    have hj1' := List.mem_range.mp hj1
    have hj2' := List.mem_range'_1.mp hj2
    cases hpe
    exact ⟨by omega, by omega⟩
  · rintro ⟨h12, h2n⟩
    refine ⟨p.1, List.mem_range.mpr (by omega), List.mem_map.mpr
      ⟨p.2, List.mem_range'_1.mpr ⟨by omega, by omega⟩, rfl⟩⟩

lemma pairsOf_true_nodup (n : Nat) : (pairsOf true n).Nodup := by
  rw [pairsOf, if_pos rfl, List.nodup_flatMap]
  constructor
  · intro j1 _
    refine List.Nodup.map (fun a b hab => congrArg Prod.snd hab) ?_
    exact List.nodup_range' _ _
  · refine (List.pairwise_lt_range _).imp ?_
    intro a b hab
    intro p hpa hpb
    rw [List.mem_map] at hpa hpb
    obtain ⟨x, _, hxa⟩ := hpa
    obtain ⟨y, _, hyb⟩ := hpb
    rw [← hxa] at hyb
    cases hyb
    exact absurd rfl (Nat.ne_of_lt hab)

lemma groupRows_length (fr : Bool) (g : List (Nat × Nat)) :
    (groupRows fr g).length
      = if fr then g.length * (g.length - 1) / 2 else g.length - 1 := by
  cases fr
  · rw [groupRows, List.length_map, pairsOf_false_length, if_neg (by simp)]
  · rw [groupRows, List.length_map, pairsOf_true_length, if_pos rfl]

lemma groupRows_length_int (fr : Bool) (g : List (Nat × Nat)) (h : 2 ≤ g.length) :
    ((groupRows fr g).length : Int)
      = if fr then ((g.length : Int) * ((g.length : Int) - 1)).tdiv 2
        else (g.length : Int) - 1 := by
  rw [groupRows_length]
  cases fr
  · rw [if_neg (by decide : ¬ ((false : Bool) = true)),
      if_neg (by decide : ¬ ((false : Bool) = true))]
    omega
  · rw [if_pos rfl, if_pos rfl]
    have h1 : (g.length : Int) * ((g.length : Int) - 1)
        = ((g.length * (g.length - 1) : Nat) : Int) := by
      have h2 : ((g.length - 1 : Nat) : Int) = (g.length : Int) - 1 := by omega
      rw [Nat.cast_mul, h2]
    rw [h1, Int.ofNat_tdiv]
    norm_num

lemma emitRows_total (fr : Bool) (C : List (List (Nat × Nat)))
    (h : ∀ g ∈ C, 2 ≤ g.length) :
    ((emitRows fr C).length : Int) = numLagrangeMult fr C := by
  induction C with
  | nil => rfl
  | cons g C ih =>
    rw [emitRows, List.flatMap_cons, List.length_append, ← emitRows]
    rw [numLagrangeMult, List.map_cons, List.sum_cons, ← numLagrangeMult]
    rw [Nat.cast_add, ih fun g' hg' => h g' (List.mem_cons_of_mem _ hg')]
    rw [groupRows_length_int fr g (h g (List.mem_cons_self _ _))]

lemma computeJumpMatrices_ok (env : Env) (s : IetiState) (fr ec : Bool)
    (h1 : ¬ s.status &&& 1 = 0) (h4 : ¬ s.status &&& 4 ≠ 0)
    (hgroups : ∀ g ∈ couplingOf env ec, 2 ≤ g.length) :
    computeJumpMatrices env s fr ec = .ok
      { s with status := s.status ||| 4
               jumpMatrices := some (mkJumpMatrices env fr (couplingOf env ec)) } := by
  have htotal := emitRows_total fr (couplingOf env ec) hgroups
  have hall : ((couplingOf env ec).all fun g => decide (1 < g.length) || ec) = true := by
    rw [List.all_eq_true]
    intro g hg
    have h2 : 1 < g.length := Nat.lt_of_lt_of_le Nat.one_lt_two (hgroups g hg)
    simp [h2]
  have hall' : ¬ ((couplingOf env ec).all fun g => decide (1 < g.length) || ec) = false := by
    rw [hall]
    decide
  rw [computeJumpMatrices, if_neg h1, if_neg h4]
  rw [if_neg hall', if_pos htotal]

/-- Claim C1: per-group jump-matrix row counts.  Under the per-group guard of
the source (every group of the — possibly corner-purged — coupling has at
least two occurrences, otherwise an `InternalInvariantViolation` is raised),
`computeJumpMatrices` succeeds and: each group of size `n` emits exactly
`n*(n-1)/2` rows in fully-redundant mode and `n-1` rows in minimal mode (in
particular `n = 2` gives one row in both modes and `n = 3` gives three resp.
two rows); the minimal-mode index pairs pair occurrence `0` against every
other occurrence; the fully-redundant pairs are exactly the unordered pairs
`j1 < j2 < n`, each exactly once; and the realized total row count equals the
theoretical `numLagrangeMult` sum over all groups. -/
theorem C1_jump_row_counts (env : Env) (s : IetiState) (fr ec : Bool)
    (h1 : ¬ s.status &&& 1 = 0) (h4 : ¬ s.status &&& 4 ≠ 0)
    (hgroups : ∀ g ∈ couplingOf env ec, 2 ≤ g.length) :
    (∃ s', computeJumpMatrices env s fr ec = .ok s') ∧
    (∀ g ∈ couplingOf env ec, (groupRows fr g).length
      = if fr then g.length * (g.length - 1) / 2 else g.length - 1) ∧
    (∀ g ∈ couplingOf env ec,
      pairsOf false g.length = (List.range' 1 (g.length - 1)).map fun j => (0, j)) ∧
    (∀ g ∈ couplingOf env ec, ∀ p : Nat × Nat,
      p ∈ pairsOf true g.length ↔ p.1 < p.2 ∧ p.2 < g.length) ∧
    (∀ g ∈ couplingOf env ec, (pairsOf true g.length).Nodup) ∧
    ((emitRows fr (couplingOf env ec)).length : Int)
      = numLagrangeMult fr (couplingOf env ec) := by
  have htotal := emitRows_total fr (couplingOf env ec) hgroups
  exact ⟨⟨_, computeJumpMatrices_ok env s fr ec h1 h4 hgroups⟩,
    fun g _ => groupRows_length fr g,
    fun g _ => pairsOf_false g.length,
    fun g _ => pairsOf_true_mem g.length,
    fun g _ => pairsOf_true_nodup g.length, htotal⟩

/-- Witness for `C1_jump_row_counts` on `env3` (one coupled dof shared by
three subdomains) in fully-redundant mode. -/
theorem C1_jump_row_counts_witness :
    (∃ s', computeJumpMatrices env3
      { status := 1, nPrimalDofs := 0, primalConstraints := [[], [], []], jumpMatrices := none }
      true false = .ok s') ∧
    ((emitRows true (couplingOf env3 false)).length : Int)
      = numLagrangeMult true (couplingOf env3 false) := by
  obtain ⟨hok, _, _, _, _, htot⟩ := C1_jump_row_counts env3
    { status := 1, nPrimalDofs := 0, primalConstraints := [[], [], []], jumpMatrices := none }
    true false (by decide) (by decide) (by decide)
  exact ⟨hok, htot⟩

/-! ### Claim C3: corner primal constraints -/

/-- The distinct run values of a list after a leading run of value `a`: drops
the elements equal to the previous run value and records each new run head. -/
def runValsFrom {α : Type} [DecidableEq α] (a : α) : List α → List α
  | [] => []
  | b :: l => if a = b then runValsFrom a l else b :: runValsFrom b l

/-- The run heads of a list: one entry per maximal run of adjacent equal
values (for a sorted list, exactly its distinct values in order). -/
def runVals {α : Type} [DecidableEq α] : List α → List α
  | [] => []
  | a :: l => a :: runValsFrom a l

lemma runValsFrom_cons_self {α : Type} [DecidableEq α] (a : α) (l : List α) :
    runValsFrom a (a :: l) = runValsFrom a l := by
  simp [runValsFrom]

lemma runValsFrom_cons_ne {α : Type} [DecidableEq α] {a b : α} (h : a ≠ b) (l : List α) :
    runValsFrom a (b :: l) = b :: runValsFrom b l := by
  simp [runValsFrom, h]

lemma mem_cons_runValsFrom {α : Type} [DecidableEq α] :
    ∀ (l : List α) (g x : α), x ∈ l → x ∈ g :: runValsFrom g l := by
  intro l
  induction l with
  | nil => intro g x hx; cases hx
  | cons b l ih =>
    intro g x hx
    by_cases hgb : g = b
    · rw [hgb, runValsFrom_cons_self]
      rcases List.mem_cons.mp hx with h | h
      · rw [h]; exact List.mem_cons_self _ _
      · exact ih b x h
    · rw [runValsFrom_cons_ne hgb]
      rcases List.mem_cons.mp hx with h | h
      · rw [h]; exact List.mem_cons_of_mem _ (List.mem_cons_self _ _)
      · rcases List.mem_cons.mp (ih b x h) with h' | h'
        · rw [h']; exact List.mem_cons_of_mem _ (List.mem_cons_self _ _)
        · exact List.mem_cons_of_mem _ (List.mem_cons_of_mem _ h')

lemma mem_runVals {α : Type} [DecidableEq α] {l : List α} {x : α} (hx : x ∈ l) :
    x ∈ runVals l := by
  cases l with
  | nil => cases hx
  | cons a l =>
    rw [runVals]
    rcases List.mem_cons.mp hx with h | h
    · rw [h]; exact List.mem_cons_self _ _
    · exact mem_cons_runValsFrom l a x h

lemma indexOf_mem_inj {α : Type} [DecidableEq α] :
    ∀ (L : List α) (a b : α), a ∈ L → b ∈ L →
      L.indexOf a = L.indexOf b → a = b := by
  intro L
  induction L with
  | nil => intro a b ha; cases ha
  | cons x L ih =>
    intro a b ha hb hidx
    by_cases hax : a = x
    · by_cases hbx : b = x
      · rw [hax, hbx]
      · rw [hax, List.indexOf_cons_self,
          List.indexOf_cons_ne L (fun hxb => hbx hxb.symm)] at hidx
        cases hidx
    · by_cases hbx : b = x
      · rw [hbx, List.indexOf_cons_self,
          List.indexOf_cons_ne L (fun hxa => hax hxa.symm)] at hidx
        cases hidx
      · rw [List.indexOf_cons_ne L (fun hxa => hax hxa.symm),
          List.indexOf_cons_ne L (fun hxb => hbx hxb.symm)] at hidx
        have ha' : a ∈ L := by
          rcases List.mem_cons.mp ha with h | h
          · exact absurd h hax
          · exact h
        have hb' : b ∈ L := by
          rcases List.mem_cons.mp hb with h | h
          · exact absurd h hbx
          · exact h
        exact ih a b ha' hb' (Nat.succ_injective hidx)

lemma processCorners_go :
    ∀ (l : List DofHelper) (g c : Nat),
      List.Chain' (· ≤ ·) (g :: l.map DofHelper.globalIndex) →
      processCorners (g : Int) c l
        = (c + (runValsFrom g (l.map DofHelper.globalIndex)).length,
           l.map fun t => (t.patch, ([(t.localIndex, (1 : ℤ))] : SparseVec),
             (c : Int) - 1
               + ((g :: runValsFrom g (l.map DofHelper.globalIndex)).indexOf
                   t.globalIndex : Int))) := by
  intro l
  induction l with
  | nil =>
    intro g c _
    simp [processCorners, runValsFrom]
  | cons t ts ih =>
    intro g c hch
    rw [List.map_cons] at hch ⊢
    have hc1 := List.chain'_cons.mp hch
    have hgt : g ≤ t.globalIndex := hc1.1
    have hch' : List.Chain' (· ≤ ·) (t.globalIndex :: ts.map DofHelper.globalIndex) :=
      hc1.2
    rw [processCorners]
    by_cases heq : t.globalIndex = g
    · have hcond : (g : Int) = (t.globalIndex : Int) := by exact_mod_cast heq.symm
      rw [if_pos hcond]
      have hrv : runValsFrom g (t.globalIndex :: ts.map DofHelper.globalIndex)
          = runValsFrom g (ts.map DofHelper.globalIndex) := by
        rw [heq, runValsFrom_cons_self]
      rw [hrv]
      have hch'' : List.Chain' (· ≤ ·) (g :: ts.map DofHelper.globalIndex) := by
        rw [← heq]; exact hch'
      rw [show (t.globalIndex : Int) = (g : Int) from hcond.symm]
      rw [ih g c hch'']
      refine congrArg₂ Prod.mk rfl ?_
      refine congrArg₂ List.cons ?_ rfl
      dsimp only
      rw [heq, List.indexOf_cons_self]
      norm_num
    · have hne : g ≠ t.globalIndex := fun h => heq h.symm
      have hcond : ¬ (g : Int) = (t.globalIndex : Int) := by exact_mod_cast hne
      rw [if_neg hcond]
      have hrv : runValsFrom g (t.globalIndex :: ts.map DofHelper.globalIndex)
          = t.globalIndex :: runValsFrom t.globalIndex (ts.map DofHelper.globalIndex) :=
        runValsFrom_cons_ne hne _
      rw [hrv]
      rw [ih t.globalIndex (c + 1) hch']
      refine congrArg₂ Prod.mk ?_ ?_
      · rw [List.length_cons]
        omega
      · refine congrArg₂ List.cons ?_ ?_
        · dsimp only
          rw [List.indexOf_cons_ne _ hne, List.indexOf_cons_self]
          have harith : ((c + 1 : Nat) : Int) - 1
              = (c : Int) - 1 + ((Nat.succ 0 : Nat) : Int) := by
            push_cast
            ring
          rw [harith]
        · refine List.map_congr_left fun u hu => ?_
          dsimp only
          have hune : g ≠ u.globalIndex := by
            have hlt : g < t.globalIndex := Nat.lt_of_le_of_ne hgt hne
            have hle : t.globalIndex ≤ u.globalIndex := by
              have hp := List.chain'_iff_pairwise.mp hch'
              exact List.rel_of_pairwise_cons hp (List.mem_map_of_mem _ hu)
            omega
          rw [List.indexOf_cons_ne _ hune]
          have harith : ∀ X : Nat, ((c + 1 : Nat) : Int) - 1 + (X : Int)
              = (c : Int) - 1 + ((Nat.succ X : Nat) : Int) := by
            intro X
            push_cast
            ring
          rw [harith]

lemma processCorners_neg_one (l : List DofHelper)
    (hch : List.Chain' (· ≤ ·) (l.map DofHelper.globalIndex)) (c : Nat) :
    processCorners (-1) c l
      = (c + (runVals (l.map DofHelper.globalIndex)).length,
         l.map fun t => (t.patch, ([(t.localIndex, (1 : ℤ))] : SparseVec),
           (c : Int)
             + ((runVals (l.map DofHelper.globalIndex)).indexOf t.globalIndex : Int))) := by
  cases l with
  | nil => simp [processCorners, runVals]
  | cons t ts =>
    rw [List.map_cons] at hch ⊢
    rw [processCorners]
    have hcond : ¬ ((-1 : Int) = (t.globalIndex : Int)) := by omega
    rw [if_neg hcond]
    rw [show runVals (t.globalIndex :: ts.map DofHelper.globalIndex)
        = t.globalIndex :: runValsFrom t.globalIndex (ts.map DofHelper.globalIndex)
      from rfl]
    rw [processCorners_go ts t.globalIndex (c + 1) hch]
    refine congrArg₂ Prod.mk ?_ ?_
    · rw [List.length_cons]
      omega
    · refine congrArg₂ List.cons ?_ ?_
      · dsimp only
        rw [List.indexOf_cons_self]
        have harith : ((c + 1 : Nat) : Int) - 1 = (c : Int) + ((0 : Nat) : Int) := by
          push_cast
          ring
        rw [harith]
      · refine List.map_congr_left fun u hu => ?_
        dsimp only
        have harith : ∀ X : Nat, ((c + 1 : Nat) : Int) - 1 + (X : Int)
            = (c : Int) + (X : Int) := by
          intro X
          push_cast
          ring
        rw [harith]

instance : IsTotal DofHelper (fun a b => a.globalIndex ≤ b.globalIndex) :=
  ⟨fun a b => Nat.le_total _ _⟩

instance : IsTrans DofHelper (fun a b => a.globalIndex ≤ b.globalIndex) :=
  ⟨fun _ _ _ hab hbc => Nat.le_trans hab hbc⟩

lemma sortedCorners_chain (env : Env) (s : IetiState) :
    List.Chain' (· ≤ ·) ((sortedCorners env s).map DofHelper.globalIndex) := by
  have hp := List.sorted_insertionSort
    (fun a b : DofHelper => a.globalIndex ≤ b.globalIndex)
    (collectCorners env (decide (s.status &&& 2 ≠ 0)))
  exact (List.pairwise_map.mpr hp).chain'

/-- Claim C3: `cornersAsPrimals`, full characterization.  The collected
tuples (one per free corner, or one per pre-image of its global index when
artificial dofs are present) are sorted by global index; writing `G` for the
distinct global indices of the sorted list in order, the new primal-dof count
is the old one plus `G.length` (one new primal id per maximal run of equal
global index), and every tuple contributes exactly one constraint row — a
unit vector with a single `1` at its local index — registered against its
subdomain under the primal id `old + G.indexOf (its global index)`.  Two
tuples receive the same primal id iff their global indices are equal, and
every assigned id is one of the `G.length` new ids. -/
theorem C3_corners_as_primals (env : Env) (s : IetiState)
    (h1 : ¬ s.status &&& 1 = 0) (h8 : ¬ s.status &&& 8 ≠ 0) :
    cornersAsPrimals env s = .ok
      { status := s.status ||| 8
        nPrimalDofs := s.nPrimalDofs
          + (runVals ((sortedCorners env s).map DofHelper.globalIndex)).length
        primalConstraints := (List.range s.primalConstraints.length).map fun k =>
          s.primalConstraints.getD k [] ++
            (((sortedCorners env s).filter fun t => t.patch = k).map fun t =>
              (([(t.localIndex, (1 : ℤ))] : SparseVec),
                (s.nPrimalDofs : Int)
                  + ((runVals ((sortedCorners env s).map DofHelper.globalIndex)).indexOf
                      t.globalIndex : Int)))
        jumpMatrices := s.jumpMatrices } ∧
    (∀ t ∈ sortedCorners env s, ∀ u ∈ sortedCorners env s,
      ((runVals ((sortedCorners env s).map DofHelper.globalIndex)).indexOf t.globalIndex
        = (runVals ((sortedCorners env s).map DofHelper.globalIndex)).indexOf u.globalIndex
        ↔ t.globalIndex = u.globalIndex)) ∧
    (∀ t ∈ sortedCorners env s,
      (runVals ((sortedCorners env s).map DofHelper.globalIndex)).indexOf t.globalIndex
        < (runVals ((sortedCorners env s).map DofHelper.globalIndex)).length) := by
  refine ⟨?_, ?_, ?_⟩
  · rw [cornersAsPrimals, if_neg h1, if_neg h8]
    dsimp only
    rw [processCorners_neg_one (sortedCorners env s) (sortedCorners_chain env s)
      s.nPrimalDofs]
    refine congrArg Except.ok ?_
    refine congrArg₂ (fun a b => IetiState.mk (s.status ||| 8) a b s.jumpMatrices)
      rfl ?_
    refine List.map_congr_left fun k hk => ?_
    refine congrArg₂ (· ++ ·) rfl ?_
    rw [List.filter_map, List.map_map]
    rfl
  · intro t ht u hu
    constructor
    · intro hidx
      exact indexOf_mem_inj _ _ _
        (mem_runVals (List.mem_map_of_mem _ ht))
        (mem_runVals (List.mem_map_of_mem _ hu)) hidx
    · intro hgi
      rw [hgi]
  · intro t ht
    exact List.indexOf_lt_length.mpr (mem_runVals (List.mem_map_of_mem _ ht))

/-- Witness for `C3_corners_as_primals` at `env2`: the four free corner
tuples (global indices `0, 1, 2, 2`) yield three primal dofs, the shared
corner (global index `2`) receiving one id (`2`) with one unit row on each of
the two subdomains. -/
theorem C3_corners_as_primals_witness :
    cornersAsPrimals env2 st1 = .ok
      { status := 9
        nPrimalDofs := 3
        primalConstraints := [[([(0, 1)], 0), ([(1, 1)], 2)], [([(1, 1)], 1), ([(0, 1)], 2)]]
        jumpMatrices := none } := by
  have h := (C3_corners_as_primals env2 st1 (by decide) (by decide)).1
  rw [h]
  decide

/-! ### Claim C2: jump-matrix row structure -/

lemma band_true_left {a b : Bool} (h : (a && b) = true) : a = true := by
  cases a
  · exact absurd h (by simp)
  · rfl

lemma band_true_right {a b : Bool} (h : (a && b) = true) : b = true := by
  cases b
  · rw [Bool.and_false] at h
    exact h
  · rfl

lemma getD_set_self {α : Type} (l : List α) (i : Nat) (x d : α) (h : i < l.length) :
    (l.set i x).getD i d = x := by
  rw [List.getD_eq_getElem?_getD, List.getElem?_set, if_pos rfl, if_pos h]
  rfl

lemma getD_set_ne {α : Type} (l : List α) {i b : Nat} (x d : α) (h : i ≠ b) :
    (l.set i x).getD b d = l.getD b d := by
  rw [List.getD_eq_getElem?_getD, List.getElem?_set, if_neg h, ← List.getD_eq_getElem?_getD]

lemma cindex_lt_coupledSize (m : DofMapper) (i k : Nat)
    (h : m.isCoupledIndex (m.index i k) = true) : m.cindex i k < m.coupledSize := by
  rw [DofMapper.isCoupledIndex, Bool.and_eq_true, decide_eq_true_eq, decide_eq_true_eq] at h
  rw [DofMapper.cindex]
  omega

lemma coupled_localFree (m : DofMapper) (i k : Nat)
    (h : m.isCoupledIndex (m.index i k) = true) : m.localFree k i = true := by
  rw [DofMapper.isCoupledIndex, Bool.and_eq_true, decide_eq_true_eq, decide_eq_true_eq] at h
  rw [DofMapper.localFree, decide_eq_true_eq]
  exact h.2

lemma localIndex_inj (m : DofMapper) (k : Nat) {i i' : Nat}
    (hi : m.localFree k i = true) (hi' : m.localFree k i' = true) (hne : i ≠ i') :
    m.localIndex k i ≠ m.localIndex k i' := by
  rcases Nat.lt_or_ge i i' with h | h
  · exact Nat.ne_of_lt (Nat.count_strict_mono hi h)
  · have h' : i' < i := by omega
    exact (Nat.ne_of_lt (Nat.count_strict_mono hi' h')).symm

lemma mem_couplingPairs (env : Env) (k i : Nat) :
    (k, i) ∈ couplingPairs env
      ↔ k < env.mapper.numPatches ∧ i < env.mapper.patchSize k := by
  rw [couplingPairs, List.mem_flatMap]
  constructor
  · rintro ⟨a, ha, hm⟩
    rw [List.mem_map] at hm
    obtain ⟨b, hb, hba⟩ := hm
    cases hba
    exact ⟨List.mem_range.mp ha, List.mem_range.mp hb⟩
  · rintro ⟨hk, hi⟩
    exact ⟨k, List.mem_range.mpr hk,
      List.mem_map.mpr ⟨i, List.mem_range.mpr hi, rfl⟩⟩

lemma couplingPairs_nodup (env : Env) : (couplingPairs env).Nodup := by
  rw [couplingPairs, List.nodup_flatMap]
  constructor
  · intro k _
    exact (List.nodup_range _).map fun a b hab => congrArg Prod.snd hab
  · refine (List.pairwise_lt_range _).imp ?_
    intro a b hab p hpa hpb
    rw [List.mem_map] at hpa hpb
    obtain ⟨x, _, hxa⟩ := hpa
    obtain ⟨y, _, hyb⟩ := hpb
    rw [← hxa] at hyb
    cases hyb
    exact absurd rfl (Nat.ne_of_lt hab)

lemma buildCoupling_aux (env : Env) :
    ∀ (L : List (Nat × Nat)) (acc : List (List (Nat × Nat))),
      acc.length = env.mapper.coupledSize →
      ∀ b,
        (L.foldl
          (fun c ki =>
            if env.mapper.isCoupledIndex (env.mapper.index ki.2 ki.1) then
              c.set (env.mapper.cindex ki.2 ki.1)
                ((c.getD (env.mapper.cindex ki.2 ki.1) []) ++
                  [(ki.1, env.mapper.localIndex ki.1 ki.2)])
            else c) acc).getD b []
        = acc.getD b [] ++
            ((L.filter fun ki =>
              env.mapper.isCoupledIndex (env.mapper.index ki.2 ki.1) &&
                (env.mapper.cindex ki.2 ki.1 == b)).map
              fun ki => (ki.1, env.mapper.localIndex ki.1 ki.2)) := by
  intro L
  induction L with
  | nil =>
    intro acc hlen b
    simp
  | cons ki L ih =>
    intro acc hlen b
    rw [List.foldl_cons, List.filter_cons]
    by_cases hc : env.mapper.isCoupledIndex (env.mapper.index ki.2 ki.1) = true
    · rw [if_pos hc]
      by_cases hb : env.mapper.cindex ki.2 ki.1 = b
      · have hcond : (env.mapper.isCoupledIndex (env.mapper.index ki.2 ki.1) &&
            (env.mapper.cindex ki.2 ki.1 == b)) = true := by
          simp [hc, hb]
        rw [if_pos hcond]
        rw [ih _ (by rw [List.length_set]; exact hlen) b]
        rw [← hb, getD_set_self _ _ _ _ (by rw [hlen]; exact cindex_lt_coupledSize _ _ _ hc)]
        rw [List.map_cons, List.append_assoc, List.singleton_append]
      · have hcond : (env.mapper.isCoupledIndex (env.mapper.index ki.2 ki.1) &&
            (env.mapper.cindex ki.2 ki.1 == b)) = false := by
          simp [hb]
        rw [if_neg (by rw [hcond]; exact Bool.false_ne_true)]
        rw [ih _ (by rw [List.length_set]; exact hlen) b]
        rw [getD_set_ne _ _ _ hb]
    · rw [if_neg hc]
      have hcond : (env.mapper.isCoupledIndex (env.mapper.index ki.2 ki.1) &&
          (env.mapper.cindex ki.2 ki.1 == b)) = false := by
        have hx : env.mapper.isCoupledIndex (env.mapper.index ki.2 ki.1) = false := by
          revert hc
          cases env.mapper.isCoupledIndex (env.mapper.index ki.2 ki.1) <;> simp
        rw [hx, Bool.false_and]
      rw [if_neg (by rw [hcond]; exact Bool.false_ne_true)]
      exact ih acc hlen b

lemma buildCoupling_getD (env : Env) (b : Nat) :
    (buildCoupling env).getD b []
      = ((couplingPairs env).filter fun ki =>
          env.mapper.isCoupledIndex (env.mapper.index ki.2 ki.1) &&
            (env.mapper.cindex ki.2 ki.1 == b)).map
          fun ki => (ki.1, env.mapper.localIndex ki.1 ki.2) := by
  rw [buildCoupling,
    buildCoupling_aux env (couplingPairs env) _ (List.length_replicate _ _) b]
  rw [List.getD_eq_getElem?_getD]
  cases hb : (List.replicate env.mapper.coupledSize
      ([] : List (Nat × Nat)))[b]? with
  | none => rfl
  | some x =>
    have := List.getElem?_mem hb
    rw [List.eq_of_mem_replicate this]
    rfl

lemma purgeCorners_getD (env : Env) (c : List (List (Nat × Nat))) (b : Nat) :
    (purgeCorners env c).getD b [] = [] ∨
      (purgeCorners env c).getD b [] = c.getD b [] := by
  rw [purgeCorners]
  generalize cornerPairs env = L
  induction L generalizing c with
  | nil => right; rfl
  | cons ki L ih =>
    rw [List.foldl_cons]
    by_cases hc : env.mapper.isCoupledIndex (env.mapper.index ki.2 ki.1) = true
    · rw [if_pos hc]
      rcases ih (c.set (env.mapper.cindex ki.2 ki.1) []) with h | h
      · left; exact h
      · by_cases hb : env.mapper.cindex ki.2 ki.1 = b
        · left
          rw [h, List.getD_eq_getElem?_getD, List.getElem?_set, if_pos hb]
          by_cases hlt : env.mapper.cindex ki.2 ki.1 < c.length
          · rw [if_pos hlt]
            rfl
          · rw [if_neg hlt]
            rfl
        · right
          rw [h, getD_set_ne _ _ _ hb]
    · rw [if_neg hc]
      exact ih c

lemma group_members_sound (env : Env) (ec : Bool) (g : List (Nat × Nat))
    (hg : g ∈ couplingOf env ec) :
    g.Nodup ∧ ∀ x ∈ g, x.1 < env.mapper.numPatches := by
  have hbase : ∀ b : Nat,
      ((buildCoupling env).getD b []).Nodup ∧
        ∀ x ∈ (buildCoupling env).getD b [], x.1 < env.mapper.numPatches := by
    intro b
    rw [buildCoupling_getD]
    constructor
    · refine List.Nodup.map_on ?_ ((couplingPairs_nodup env).filter _)
      intro x hx y hy hxy
      have hx' := List.mem_filter.mp hx
      have hy' := List.mem_filter.mp hy
      have hxc := band_true_left hx'.2
      have hyc := band_true_left hy'.2
      have h1 : x.1 = y.1 := (Prod.ext_iff.mp hxy).1
      have h2 : env.mapper.localIndex x.1 x.2 = env.mapper.localIndex y.1 y.2 :=
        (Prod.ext_iff.mp hxy).2
      rw [← h1] at h2
      by_cases hxy2 : x.2 = y.2
      · exact Prod.ext h1 hxy2
      · exact absurd h2 (localIndex_inj env.mapper x.1
          (coupled_localFree _ _ _ hxc)
          (by rw [h1]; exact coupled_localFree _ _ _ hyc) hxy2)
    · intro x hx
      rw [List.mem_map] at hx
      obtain ⟨ki, hki, hkix⟩ := hx
      have := ((mem_couplingPairs env ki.1 ki.2).mp
        (List.mem_filter.mp hki).1).1
      rw [← hkix]
      exact this
  have : ∃ b, g = (couplingOf env ec).getD b [] ∧ b < (couplingOf env ec).length := by
    obtain ⟨n, hget⟩ := List.mem_iff_get.mp hg
    refine ⟨n, ?_, n.isLt⟩
    rw [List.getD_eq_getElem?_getD, List.getElem?_eq_getElem n.isLt]
    exact hget.symm
  obtain ⟨b, hgb, _⟩ := this
  rw [couplingOf] at hgb
  cases ec with
  | false =>
    rw [if_neg (by decide : ¬ ((false : Bool) = true))] at hgb
    rw [hgb]
    exact hbase b
  | true =>
    rw [if_pos rfl] at hgb
    rcases purgeCorners_getD env (buildCoupling env) b with h | h
    · rw [hgb, h]
      exact ⟨List.nodup_nil, fun x hx => absurd hx (List.not_mem_nil x)⟩
    · rw [hgb, h]
      exact hbase b

/-- Value of the assembled sparse matrix of patch `p` at `(row m, column c)`:
the sum of all matching entries (mirroring Eigen's `setFrom`, which adds up
duplicate entries). -/
def matVal (mats : List SparseMat) (p m c : Nat) : ℤ :=
  (((mats.getD p ⟨0, 0, []⟩).entries.filter fun e => (e.1 == m) && (e.2.1 == c)).map
    fun e => e.2.2).sum

lemma rowEntries_row_eq (p m : Nat) (r : (Nat × Nat) × (Nat × Nat)) :
    ∀ e ∈ rowEntries p m r, e.1 = m := by
  intro e he
  rw [rowEntries] at he
  rcases List.mem_append.mp he with h | h <;>
  · split at h
    · rw [List.mem_singleton] at h
      rw [h]
    · cases h

lemma enumFrom_rowEntries_ge (p : Nat) :
    ∀ (L : List ((Nat × Nat) × (Nat × Nat))) (n : Nat),
      ∀ e ∈ (L.enumFrom n).flatMap fun mr => rowEntries p mr.1 mr.2, n ≤ e.1 := by
  intro L
  induction L with
  | nil => intro n e he; cases he
  | cons r L ih =>
    intro n e he
    rw [List.enumFrom_cons, List.flatMap_cons] at he
    rcases List.mem_append.mp he with h | h
    · rw [rowEntries_row_eq p n r e h]
    · exact Nat.le_of_succ_le (ih (n + 1) e h)

lemma enumFrom_rowEntries_filter (p c : Nat) :
    ∀ (L : List ((Nat × Nat) × (Nat × Nat))) (n m : Nat) (r0 : (Nat × Nat) × (Nat × Nat)),
      n ≤ m → L[m - n]? = some r0 →
      (((L.enumFrom n).flatMap fun mr => rowEntries p mr.1 mr.2).filter
          fun e => (e.1 == m) && (e.2.1 == c))
        = (rowEntries p m r0).filter fun e => (e.2.1 == c) := by
  intro L
  induction L with
  | nil =>
    intro n m r0 _ hget
    rw [List.getElem?_eq_none (by simp)] at hget
    cases hget
  | cons r L ih =>
    intro n m r0 hnm hget
    rw [List.enumFrom_cons, List.flatMap_cons, List.filter_append]
    by_cases hm : m = n
    · have h0 : m - n = 0 := by omega
      rw [h0] at hget
      have hr0 : r0 = r := by
        rw [List.getElem?_cons_zero] at hget
        exact (Option.some.injEq _ _ ▸ hget).symm
      have hhead : ((rowEntries p n r).filter fun e => (e.1 == m) && (e.2.1 == c))
          = (rowEntries p m r0).filter fun e => (e.2.1 == c) := by
        rw [hr0, hm]
        refine List.filter_congr ?_
        intro e he
        rw [rowEntries_row_eq p n r e he]
        simp
      have htail : (((L.enumFrom (n + 1)).flatMap fun mr =>
            rowEntries p mr.1 mr.2).filter fun e => (e.1 == m) && (e.2.1 == c)) = [] := by
        rw [List.filter_eq_nil_iff]
        intro e he
        have := enumFrom_rowEntries_ge p L (n + 1) e he
        have hne : ¬ e.1 = m := by omega
        simp [hne]
      rw [hhead, htail, List.append_nil]
    · have hlt : n < m := Nat.lt_of_le_of_ne hnm (fun h => hm h.symm)
      have hhead : ((rowEntries p n r).filter fun e => (e.1 == m) && (e.2.1 == c)) = [] := by
        rw [List.filter_eq_nil_iff]
        intro e he
        rw [rowEntries_row_eq p n r e he]
        have hne : ¬ n = m := fun h => hm h.symm
        simp [hne]
      have hget' : L[m - (n + 1)]? = some r0 := by
        have hmn : m - n = (m - (n + 1)) + 1 := by omega
        rw [hmn, List.getElem?_cons_succ] at hget
        exact hget
      rw [hhead, List.nil_append]
      exact ih (n + 1) m r0 hlt hget'

lemma rowEntries_filter_sum (p c m : Nat) (r : (Nat × Nat) × (Nat × Nat)) :
    ((((rowEntries p m r).filter fun e => (e.2.1 == c)).map fun e => e.2.2).sum : ℤ)
      = (if r.1.1 = p ∧ r.1.2 = c then 1 else 0)
        + (if r.2.1 = p ∧ r.2.2 = c then (-1) else 0) := by
  rw [rowEntries, List.filter_append, List.map_append, List.sum_append]
  refine congrArg₂ (· + ·) ?_ ?_
  · by_cases h1 : r.1.1 = p
    · rw [if_pos h1]
      by_cases h2 : r.1.2 = c
      · rw [if_pos ⟨h1, h2⟩]
        simp [h2]
      · rw [if_neg (fun hc => h2 hc.2)]
        simp [h2]
    · rw [if_neg h1, if_neg (fun hc => h1 hc.1)]
      simp
  · by_cases h1 : r.2.1 = p
    · rw [if_pos h1]
      by_cases h2 : r.2.2 = c
      · rw [if_pos ⟨h1, h2⟩]
        simp [h2]
      · rw [if_neg (fun hc => h2 hc.2)]
        simp [h2]
    · rw [if_neg h1, if_neg (fun hc => h1 hc.1)]
      simp

lemma mkJumpMatrices_getD (env : Env) (fr : Bool) (C : List (List (Nat × Nat)))
    (p : Nat) (hp : p < env.mapper.numPatches) :
    (mkJumpMatrices env fr C).getD p ⟨0, 0, []⟩
      = { rows := numLagrangeMult fr C
          cols := env.mapper.localFreeSize p
          entries := (emitRows fr C).enum.flatMap fun mr => rowEntries p mr.1 mr.2 } := by
  rw [mkJumpMatrices, List.getD_eq_getElem?_getD, List.getElem?_map,
    List.getElem?_range hp]
  rfl

lemma mkJumpMatrices_getD_out (env : Env) (fr : Bool) (C : List (List (Nat × Nat)))
    (p : Nat) (hp : ¬ p < env.mapper.numPatches) :
    (mkJumpMatrices env fr C).getD p ⟨0, 0, []⟩ = ⟨0, 0, []⟩ := by
  rw [mkJumpMatrices, List.getD_eq_getElem?_getD, List.getElem?_map]
  rw [List.getElem?_eq_none (by rw [List.length_range]; omega)]
  rfl

lemma emitRows_mem_struct (fr : Bool) (C : List (List (Nat × Nat)))
    (r : (Nat × Nat) × (Nat × Nat)) (hr : r ∈ emitRows fr C) :
    ∃ g ∈ C, r.1 ∈ g ∧ r.2 ∈ g ∧ (g.Nodup → r.1 ≠ r.2) := by
  rw [emitRows, List.mem_flatMap] at hr
  obtain ⟨g, hg, hrg⟩ := hr
  rw [groupRows, List.mem_map] at hrg
  obtain ⟨pj, hpj, hpr⟩ := hrg
  have hbound : pj.1 < pj.2 ∧ pj.2 < g.length := by
    cases fr
    · rw [pairsOf_false, List.mem_map] at hpj
      obtain ⟨j, hj, hjp⟩ := hpj
      have hj' := List.mem_range'_1.mp hj
      rw [← hjp]
      exact ⟨by omega, by omega⟩
    · exact (pairsOf_true_mem _ _).mp hpj
  have h1lt : pj.1 < g.length := Nat.lt_trans hbound.1 hbound.2
  have hget1 : g.getD pj.1 (0, 0) = g.get ⟨pj.1, h1lt⟩ := by
    rw [List.getD_eq_getElem?_getD, List.getElem?_eq_getElem h1lt]
    rfl
  have hget2 : g.getD pj.2 (0, 0) = g.get ⟨pj.2, hbound.2⟩ := by
    rw [List.getD_eq_getElem?_getD, List.getElem?_eq_getElem hbound.2]
    rfl
  refine ⟨g, hg, ?_, ?_, ?_⟩
  · rw [← hpr]
    dsimp only
    rw [hget1]
    exact List.get_mem _ _ _
  · rw [← hpr]
    dsimp only
    rw [hget2]
    exact List.get_mem _ _ _
  · intro hnd hcontra
    rw [← hpr] at hcontra
    dsimp only at hcontra
    rw [hget1, hget2] at hcontra
    have := (hnd.get_inj_iff).mp hcontra
    have hv : pj.1 = pj.2 := congrArg Fin.val this
    omega

/-- Claim C2: every emitted jump-matrix row has exactly two nonzero entries,
`+1` and `-1` (summing to `0`), located in at most two distinct per-subdomain
matrices (the matrices of at most two valid patch indices); and every
per-subdomain matrix has `numLagrangeMult` rows and `localFreeSize k`
columns.  Stated under the source's per-group guard (each group of the
coupling has at least two occurrences). -/
theorem C2_jump_matrix_row_structure (env : Env) (s : IetiState) (fr ec : Bool)
    (h1 : ¬ s.status &&& 1 = 0) (h4 : ¬ s.status &&& 4 ≠ 0)
    (hgroups : ∀ g ∈ couplingOf env ec, 2 ≤ g.length) :
    ∃ s', computeJumpMatrices env s fr ec = .ok s' ∧
      s'.jumpMatrices = some (mkJumpMatrices env fr (couplingOf env ec)) ∧
      (mkJumpMatrices env fr (couplingOf env ec)).length = env.mapper.numPatches ∧
      (∀ p, p < env.mapper.numPatches →
        ((mkJumpMatrices env fr (couplingOf env ec)).getD p ⟨0, 0, []⟩).rows
            = numLagrangeMult fr (couplingOf env ec) ∧
        ((mkJumpMatrices env fr (couplingOf env ec)).getD p ⟨0, 0, []⟩).cols
            = env.mapper.localFreeSize p) ∧
      (∀ m, m < (emitRows fr (couplingOf env ec)).length →
        ∃ p1 c1 p2 c2,
          p1 < env.mapper.numPatches ∧ p2 < env.mapper.numPatches ∧
          ¬ ((p1, c1) = ((p2, c2) : Nat × Nat)) ∧
          matVal (mkJumpMatrices env fr (couplingOf env ec)) p1 m c1 = 1 ∧
          matVal (mkJumpMatrices env fr (couplingOf env ec)) p2 m c2 = -1 ∧
          matVal (mkJumpMatrices env fr (couplingOf env ec)) p1 m c1
            + matVal (mkJumpMatrices env fr (couplingOf env ec)) p2 m c2 = 0 ∧
          (∀ p c, ¬ ((p, c) = ((p1, c1) : Nat × Nat)) → ¬ ((p, c) = ((p2, c2) : Nat × Nat)) →
            matVal (mkJumpMatrices env fr (couplingOf env ec)) p m c = 0)) := by
  refine ⟨_, computeJumpMatrices_ok env s fr ec h1 h4 hgroups, rfl, ?_, ?_, ?_⟩
  · rw [mkJumpMatrices, List.length_map, List.length_range]
  · intro p hp
    rw [mkJumpMatrices_getD env fr _ p hp]
    exact ⟨rfl, rfl⟩
  · intro m hm
    set R := emitRows fr (couplingOf env ec) with hR
    set r := R.get ⟨m, hm⟩ with hr
    have hrmem : r ∈ R := List.get_mem _ _ _
    obtain ⟨g, hgC, hmem1, hmem2, hneType⟩ := emitRows_mem_struct fr _ r hrmem
    obtain ⟨hnd, hpatches⟩ := group_members_sound env ec g hgC
    have hne : r.1 ≠ r.2 := hneType hnd
    have hval : ∀ p c, matVal (mkJumpMatrices env fr (couplingOf env ec)) p m c
        = (if r.1.1 = p ∧ r.1.2 = c then 1 else 0)
          + (if r.2.1 = p ∧ r.2.2 = c then (-1) else 0) := by
      intro p c
      by_cases hp : p < env.mapper.numPatches
      · rw [matVal, mkJumpMatrices_getD env fr _ p hp]
        have hget : R[m - 0]? = some r := by
          rw [Nat.sub_zero, List.getElem?_eq_getElem hm]
          rfl
        rw [show (emitRows fr (couplingOf env ec)).enum
            = (emitRows fr (couplingOf env ec)).enumFrom 0 from rfl, ← hR]
        rw [enumFrom_rowEntries_filter p c R 0 m r (Nat.zero_le m) hget]
        exact rowEntries_filter_sum p c m r
      · rw [matVal, mkJumpMatrices_getD_out env fr _ p hp]
        have hp1 : ¬ r.1.1 = p := by
          intro hc
          exact hp (hc ▸ hpatches r.1 hmem1)
        have hp2 : ¬ r.2.1 = p := by
          intro hc
          exact hp (hc ▸ hpatches r.2 hmem2)
        rw [if_neg (fun hc => hp1 hc.1), if_neg (fun hc => hp2 hc.1)]
        rfl
    have hA : ¬ (r.2.1 = r.1.1 ∧ r.2.2 = r.1.2) := fun hc =>
      hne (Prod.ext hc.1 hc.2).symm
    have hB : ¬ (r.1.1 = r.2.1 ∧ r.1.2 = r.2.2) := fun hc =>
      hne (Prod.ext hc.1 hc.2)
    refine ⟨r.1.1, r.1.2, r.2.1, r.2.2,
      hpatches r.1 hmem1, hpatches r.2 hmem2, ?_, ?_, ?_, ?_, ?_⟩
    · intro hc
      exact hne (Prod.ext (congrArg Prod.fst hc) (congrArg Prod.snd hc))
    · rw [hval, if_pos (⟨rfl, rfl⟩ : r.1.1 = r.1.1 ∧ r.1.2 = r.1.2), if_neg hA]
      norm_num
    · rw [hval, if_neg hB, if_pos (⟨rfl, rfl⟩ : r.2.1 = r.2.1 ∧ r.2.2 = r.2.2)]
      norm_num
    · rw [hval, hval, if_pos (⟨rfl, rfl⟩ : r.1.1 = r.1.1 ∧ r.1.2 = r.1.2),
        if_pos (⟨rfl, rfl⟩ : r.2.1 = r.2.1 ∧ r.2.2 = r.2.2), if_neg hA, if_neg hB]
      norm_num
    · intro p c hc1 hc2
      have hx1 : ¬ (r.1.1 = p ∧ r.1.2 = c) := fun hc =>
        hc1 (Prod.ext hc.1.symm hc.2.symm)
      have hx2 : ¬ (r.2.1 = p ∧ r.2.2 = c) := fun hc =>
        hc2 (Prod.ext hc.1.symm hc.2.symm)
      rw [hval, if_neg hx1, if_neg hx2]
      norm_num

/-- Witness for `C2_jump_matrix_row_structure` at `env3` in minimal mode. -/
theorem C2_jump_matrix_row_structure_witness :
    ∃ s', computeJumpMatrices env3
        { status := 1, nPrimalDofs := 0, primalConstraints := [[], [], []]
          jumpMatrices := none } false false = .ok s' ∧
      s'.jumpMatrices = some (mkJumpMatrices env3 false (couplingOf env3 false)) := by
  obtain ⟨s', hok, hjm, -⟩ := C2_jump_matrix_row_structure env3
    { status := 1, nPrimalDofs := 0, primalConstraints := [[], [], []]
      jumpMatrices := none } false false (by decide) (by decide) (by decide)
  exact ⟨s', hok, hjm⟩

/-! ### Claim C4: interface-average collapse -/

lemma firstDiffLt_irrefl : ∀ a : List Nat, firstDiffLt a a = false := by
  intro a
  induction a with
  | nil => rfl
  | cons x as ih => simp [firstDiffLt, ih]

lemma firstDiffLt_conn : ∀ (a b : List Nat), a.length = b.length →
    firstDiffLt a b = false → firstDiffLt b a = false → a = b := by
  intro a
  induction a with
  | nil =>
    intro b hlen _ _
    cases b with
    | nil => rfl
    | cons y bs => simp at hlen
  | cons x as ih =>
    intro b hlen h1 h2
    cases b with
    | nil => simp at hlen
    | cons y bs =>
      rw [firstDiffLt] at h1 h2
      by_cases hxy : x = y
      · rw [if_neg (not_not_intro hxy)] at h1
        rw [if_neg (not_not_intro hxy.symm)] at h2
        rw [hxy, ih bs (by simpa using hlen) h1 h2]
      · rw [if_pos hxy] at h1
        rw [if_pos (fun h => hxy h.symm)] at h2
        simp only [decide_eq_false_iff_not, Nat.not_lt] at h1 h2
        exact absurd (by omega) hxy

lemma firstDiffLt_trans : ∀ (a b c : List Nat), a.length = b.length →
    b.length = c.length →
    firstDiffLt a b = true → firstDiffLt b c = true → firstDiffLt a c = true := by
  intro a
  induction a with
  | nil =>
    intro b c _ _ h1 _
    cases b <;> simp [firstDiffLt] at h1
  | cons x as ih =>
    intro b c hab hbc h1 h2
    cases b with
    | nil => simp at hab
    | cons y bs =>
      cases c with
      | nil => simp at hbc
      | cons z cs =>
        rw [firstDiffLt] at h1 h2 ⊢
        by_cases hxy : x = y
        · rw [if_neg (not_not_intro hxy)] at h1
          by_cases hyz : y = z
          · rw [if_neg (not_not_intro hyz)] at h2
            rw [if_neg (not_not_intro (hxy.trans hyz))]
            exact ih bs cs (by simpa using hab) (by simpa using hbc) h1 h2
          · rw [if_pos hyz] at h2
            have hlt := of_decide_eq_true h2
            have hxz : x ≠ z := by omega
            rw [if_pos hxz]
            exact decide_eq_true (by omega)
        · rw [if_pos hxy] at h1
          have hlt := of_decide_eq_true h1
          by_cases hyz : y = z
          · have hxz : x ≠ z := by omega
            rw [if_pos hxz]
            exact decide_eq_true (by omega)
          · rw [if_pos hyz] at h2
            have hlt2 := of_decide_eq_true h2
            have hxz : x ≠ z := by omega
            rw [if_pos hxz]
            exact decide_eq_true (by omega)

lemma sigLt_irrefl (a : List Nat) : sigLt a a = false := by
  rw [sigLt, if_neg (not_not_intro rfl)]
  exact firstDiffLt_irrefl a

lemma sigLt_conn {a b : List Nat} (h1 : sigLt a b = false) (h2 : sigLt b a = false) :
    a = b := by
  rw [sigLt] at h1 h2
  by_cases hlen : a.length = b.length
  · rw [if_neg (not_not_intro hlen)] at h1
    rw [if_neg (not_not_intro hlen.symm)] at h2
    exact firstDiffLt_conn a b hlen h1 h2
  · rw [if_pos hlen] at h1
    rw [if_pos (fun h => hlen h.symm)] at h2
    simp only [decide_eq_false_iff_not, Nat.not_lt] at h1 h2
    exact absurd (by omega) hlen

lemma sigLt_trans {a b c : List Nat} (h1 : sigLt a b = true) (h2 : sigLt b c = true) :
    sigLt a c = true := by
  rw [sigLt] at h1 h2 ⊢
  by_cases hab : a.length = b.length
  · rw [if_neg (not_not_intro hab)] at h1
    by_cases hbc : b.length = c.length
    · rw [if_neg (not_not_intro hbc)] at h2
      rw [if_neg (not_not_intro (hab.trans hbc))]
      exact firstDiffLt_trans a b c hab hbc h1 h2
    · rw [if_pos hbc] at h2
      have := of_decide_eq_true h2
      have hac : a.length ≠ c.length := by omega
      rw [if_pos hac]
      exact decide_eq_true (by omega)
  · rw [if_pos hab] at h1
    have h1' := of_decide_eq_true h1
    by_cases hbc : b.length = c.length
    · have hac : a.length ≠ c.length := by omega
      rw [if_pos hac]
      exact decide_eq_true (by omega)
    · rw [if_pos hbc] at h2
      have h2' := of_decide_eq_true h2
      have hac : a.length ≠ c.length := by omega
      rw [if_pos hac]
      exact decide_eq_true (by omega)

lemma sigLt_ne {a b : List Nat} (h : sigLt a b = true) : a ≠ b := by
  intro he
  rw [he, sigLt_irrefl] at h
  cases h

lemma sigLe_trans {a b c : List Nat} (h1 : sigLt b a = false) (h2 : sigLt c b = false) :
    sigLt c a = false := by
  cases hca : sigLt c a with
  | false => rfl
  | true =>
    by_cases hbc : sigLt b c = true
    · have := sigLt_trans hbc hca
      rw [this] at h1
      cases h1
    · have hbc' : sigLt b c = false := by
        revert hbc
        cases sigLt b c <;> simp
      have hbceq : b = c := sigLt_conn hbc' h2
      rw [← hbceq] at hca
      rw [hca] at h1
      cases h1

lemma sigLe_total (a b : List Nat) : sigLt b a = false ∨ sigLt a b = false := by
  by_cases h : sigLt b a = true
  · right
    cases hab : sigLt a b with
    | false => rfl
    | true =>
      have := sigLt_trans hab h
      rw [sigLt_irrefl] at this
      cases this
  · left
    revert h
    cases sigLt b a <;> simp

instance : IsTrans (List Nat) (fun x y => sigLt y x = false) :=
  ⟨fun _ _ _ hab hbc => sigLe_trans hab hbc⟩

instance : IsTrans ConstrHelper
    (fun a b => sigLt b.globalIndices a.globalIndices = false) :=
  ⟨fun _ _ _ hab hbc => sigLe_trans hab hbc⟩

instance : IsTotal ConstrHelper
    (fun a b => sigLt b.globalIndices a.globalIndices = false) :=
  ⟨fun a b => sigLe_total a.globalIndices b.globalIndices⟩

/-- Whether a signature survives the collapse for one sorted component list:
the component coincides with the domain dimension, or the signature occurs at
least twice. -/
def keptB (dimEq : Bool) (S : List (List Nat)) (g : List Nat) : Bool :=
  dimEq || decide (2 ≤ S.count g)

lemma keptB_cons_ne (dimEq : Bool) (x g : List Nat) (S : List (List Nat))
    (h : g ≠ x) : keptB dimEq (x :: S) g = keptB dimEq S g := by
  have hbeq : (x == g) = false := beq_eq_false_iff_ne.mpr (Ne.symm h)
  rw [keptB, keptB, List.count_cons, hbeq]
  simp

lemma chain_all_sig {S : List (List Nat)} {a : List Nat}
    (h : List.Chain' (fun x y => sigLt y x = false) (a :: S)) :
    ∀ b ∈ S, sigLt b a = false := by
  have hp := List.chain'_iff_pairwise.mp h
  exact fun b hb => List.rel_of_pairwise_cons hp hb

lemma runValsFrom_strict : ∀ (S : List (List Nat)) (p : List Nat),
    List.Chain' (fun x y => sigLt y x = false) (p :: S) →
    ∀ g ∈ runValsFrom p S, sigLt p g = true := by
  intro S
  induction S with
  | nil => intro p _ g hg; cases hg
  | cons b S ih =>
    intro p hch g hg
    have hc := List.chain'_cons.mp hch
    by_cases hpb : p = b
    · rw [hpb, runValsFrom_cons_self] at hg
      have := ih b hc.2 g hg
      rw [hpb]
      exact this
    · rw [runValsFrom_cons_ne hpb] at hg
      have hpblt : sigLt p b = true := by
        cases hx : sigLt p b with
        | true => rfl
        | false => exact absurd (sigLt_conn hx hc.1) hpb
      rcases List.mem_cons.mp hg with h | h
      · rw [h]
        exact hpblt
      · exact sigLt_trans hpblt (ih b hc.2 g h)

lemma mem_cons_sorted_sig {b : List Nat} {S : List (List Nat)} {a : List Nat}
    (hch : List.Chain' (fun x y => sigLt y x = false) (a :: b :: S))
    (hmem : a ∈ b :: S) : a = b := by
  rcases List.mem_cons.mp hmem with h | h
  · exact h
  · have h1 : sigLt b a = false := (List.chain'_cons.mp hch).1
    have h2 : sigLt a b = false := chain_all_sig (List.chain'_cons.mp hch).2 a h
    exact sigLt_conn h2 h1

lemma indexOf_cons_self_lb {α : Type} [BEq α] [LawfulBEq α] (a : α) (l : List α) :
    List.indexOf a (a :: l) = 0 := by
  rw [List.indexOf_cons, beq_self_eq_true]
  rfl

lemma indexOf_cons_ne_lb {α : Type} [BEq α] [LawfulBEq α] {a b : α} (l : List α)
    (h : b ≠ a) : List.indexOf a (b :: l) = List.indexOf a l + 1 := by
  rw [List.indexOf_cons, beq_eq_false_iff_ne.mpr h]
  rfl

lemma indexOf_mem_inj_lb {α : Type} [BEq α] [LawfulBEq α] :
    ∀ (L : List α) (a b : α), a ∈ L → b ∈ L →
      L.indexOf a = L.indexOf b → a = b := by
  intro L
  induction L with
  | nil => intro a b ha; cases ha
  | cons x L ih =>
    intro a b ha hb hidx
    by_cases hax : a = x
    · by_cases hbx : b = x
      · rw [hax, hbx]
      · rw [hax, indexOf_cons_self_lb,
          indexOf_cons_ne_lb L (fun hxb => hbx hxb.symm)] at hidx
        cases hidx
    · by_cases hbx : b = x
      · rw [hbx, indexOf_cons_self_lb,
          indexOf_cons_ne_lb L (fun hxa => hax hxa.symm)] at hidx
        cases hidx
      · rw [indexOf_cons_ne_lb L (fun hxa => hax hxa.symm),
          indexOf_cons_ne_lb L (fun hxb => hbx hxb.symm)] at hidx
        have ha' : a ∈ L := by
          rcases List.mem_cons.mp ha with h | h
          · exact absurd h hax
          · exact h
        have hb' : b ∈ L := by
          rcases List.mem_cons.mp hb with h | h
          · exact absurd h hbx
          · exact h
        exact ih a b ha' hb' (Nat.succ_injective hidx)

lemma indexOf_lt_length_lb {α : Type} [BEq α] [LawfulBEq α] :
    ∀ (L : List α) (a : α), a ∈ L → L.indexOf a < L.length := by
  intro L
  induction L with
  | nil => intro a ha; cases ha
  | cons x L ih =>
    intro a ha
    by_cases hax : x = a
    · rw [hax, indexOf_cons_self_lb]
      exact Nat.succ_pos _
    · rw [indexOf_cons_ne_lb L hax, List.length_cons]
      have ha' : a ∈ L := by
        rcases List.mem_cons.mp ha with h | h
        · exact absurd h.symm hax
        · exact h
      exact Nat.succ_lt_succ (ih a ha')

lemma if_true_eq_true {α : Type} (a b : α) : (if true = true then a else b) = a := rfl

lemma if_false_eq_true {α : Type} (a b : α) : (if false = true then a else b) = b := rfl

/-- Prepends the previous signature of the `processAvg` loop, if any. -/
def optPrepend : Option (List Nat) → List (List Nat) → List (List Nat)
  | none, S => S
  | some p, S => p :: S

/-- Run heads of a signature list relative to an optional previous value. -/
def runValsOpt : Option (List Nat) → List (List Nat) → List (List Nat)
  | none, S => runVals S
  | some p, S => runValsFrom p S

/-- Whether a signature equals the optional previous signature. -/
def prevEq : Option (List Nat) → List Nat → Bool
  | none, _ => false
  | some p, g => g == p

/-- Closed form of the data-construction loop of `interfaceAveragesAsPrimals`
on a sorted constraint list: the counter grows by one for each kept run head
(a signature that is repeated, or any signature if the component spans the
whole domain), continuation elements of the previous run are pushed with id
`c - 1`, and every other kept element is pushed with id `c` plus the rank of
its signature among the kept run heads; singleton runs that are not kept are
dropped without touching the counter. -/
lemma processAvg_closed (dimEq : Bool) :
    ∀ (l : List ConstrHelper) (prev : Option (List Nat)) (c : Nat),
      List.Chain' (fun x y => sigLt y x = false)
        (optPrepend prev (l.map ConstrHelper.globalIndices)) →
      processAvg dimEq prev c l =
        (c + ((runValsOpt prev (l.map ConstrHelper.globalIndices)).filter
            (keptB dimEq (l.map ConstrHelper.globalIndices))).length,
         (l.filter fun u => prevEq prev u.globalIndices ||
             keptB dimEq (l.map ConstrHelper.globalIndices) u.globalIndices).map fun u =>
           (u.patch, u.vec,
             if prevEq prev u.globalIndices = true then (c : Int) - 1
             else (c : Int) +
               (((runValsOpt prev (l.map ConstrHelper.globalIndices)).filter
                   (keptB dimEq (l.map ConstrHelper.globalIndices))).indexOf
                 u.globalIndices : Int))) := by
  intro l
  induction l with
  | nil =>
    intro prev c _
    cases prev with
    | none => simp [processAvg, runValsOpt, runVals]
    | some p => simp [processAvg, runValsOpt, runValsFrom]
  | cons t ts ih =>
    intro prev c hyp
    have hch0 : List.Chain' (fun x y => sigLt y x = false)
        (t.globalIndices :: ts.map ConstrHelper.globalIndices) := by
      cases prev with
      | none =>
        simp only [optPrepend] at hyp
        rw [List.map_cons] at hyp
        exact hyp
      | some p =>
        simp only [optPrepend] at hyp
        rw [List.map_cons] at hyp
        exact (List.chain'_cons.mp hyp).2
    have hnone : processAvg dimEq none c (t :: ts)
        = (c + ((runVals ((t :: ts).map ConstrHelper.globalIndices)).filter
              (keptB dimEq ((t :: ts).map ConstrHelper.globalIndices))).length,
           ((t :: ts).filter fun u =>
               keptB dimEq ((t :: ts).map ConstrHelper.globalIndices) u.globalIndices).map
             fun u =>
               (u.patch, u.vec,
                 (c : Int) +
                   (((runVals ((t :: ts).map ConstrHelper.globalIndices)).filter
                       (keptB dimEq ((t :: ts).map ConstrHelper.globalIndices))).indexOf
                     u.globalIndices : Int))) := by
      cases ts with
      | nil =>
        rw [List.map_cons, List.map_nil]
        rw [processAvg.eq_def]
        dsimp only
        rw [if_true_eq_true, Bool.false_or]
        by_cases hdim : dimEq = true
        · rw [if_pos hdim]
          dsimp only
          rw [if_false_eq_true]
          rw [show processAvg dimEq (some t.globalIndices) (c + 1) ([] : List ConstrHelper)
              = (c + 1, ([] : List (Nat × SparseVec × Int))) from rfl]
          dsimp only
          have hkk : keptB dimEq [t.globalIndices] t.globalIndices = true := by
            rw [keptB, hdim, Bool.true_or]
          rw [show runVals [t.globalIndices] = [t.globalIndices] from rfl]
          rw [List.filter_cons, if_pos hkk, List.filter_nil]
          rw [List.filter_cons]
          rw [if_pos hkk, List.filter_nil]
          rw [List.map_cons, List.map_nil]
          rw [indexOf_cons_self_lb]
          refine congrArg₂ Prod.mk rfl ?_
          refine congrArg₂ List.cons ?_ rfl
          refine congrArg₂ Prod.mk rfl ?_
          refine congrArg₂ Prod.mk rfl ?_
          push_cast
          ring
        · have hdf : dimEq = false := by
            revert hdim
            cases dimEq <;> simp
          rw [if_neg hdim]
          dsimp only
          rw [if_true_eq_true]
          rw [show processAvg dimEq (some t.globalIndices) c ([] : List ConstrHelper)
              = (c, ([] : List (Nat × SparseVec × Int))) from rfl]
          dsimp only
          have hkk : keptB dimEq [t.globalIndices] t.globalIndices = false := by
            rw [keptB, hdf, Bool.false_or]
            simp [List.count_cons]
          rw [show runVals [t.globalIndices] = [t.globalIndices] from rfl]
          rw [List.filter_cons, if_neg (by rw [hkk]; exact Bool.false_ne_true),
            List.filter_nil]
          rw [List.filter_cons]
          rw [if_neg (by rw [hkk]; exact Bool.false_ne_true), List.filter_nil]
          rw [List.map_nil]
          rfl
      | cons u ts' =>
        rw [List.map_cons] at hch0
        have hadj : sigLt u.globalIndices t.globalIndices = false :=
          (List.chain'_cons.mp hch0).1
        have hbang : (!sigLt t.globalIndices u.globalIndices)
            = decide (t.globalIndices = u.globalIndices) := by
          by_cases hte : t.globalIndices = u.globalIndices
          · rw [hte, sigLt_irrefl]
            simp
          · have hlt : sigLt t.globalIndices u.globalIndices = true := by
              cases hx : sigLt t.globalIndices u.globalIndices with
              | true => rfl
              | false => exact absurd (sigLt_conn hx hadj) hte
            rw [hlt]
            simp [hte]
        have hiff : (2 ≤ (t.globalIndices :: u.globalIndices ::
            ts'.map ConstrHelper.globalIndices).count t.globalIndices)
            ↔ t.globalIndices = u.globalIndices := by
          constructor
          · intro h2
            rw [List.count_cons_self] at h2
            have hmem := List.count_pos_iff.mp
              (by omega : 0 < (u.globalIndices ::
                ts'.map ConstrHelper.globalIndices).count t.globalIndices)
            exact mem_cons_sorted_sig hch0 hmem
          · intro he
            have hmem : t.globalIndices ∈ u.globalIndices ::
                ts'.map ConstrHelper.globalIndices := by
              rw [he]
              exact List.mem_cons_self _ _
            have hpos := List.count_pos_iff.mpr hmem
            rw [List.count_cons_self]
            omega
        have hX : (!sigLt t.globalIndices u.globalIndices || dimEq)
            = keptB dimEq (t.globalIndices :: u.globalIndices ::
                ts'.map ConstrHelper.globalIndices) t.globalIndices := by
          rw [hbang, keptB, Bool.or_comm]
          exact congrArg (fun b => dimEq || b) (decide_eq_decide.mpr hiff.symm)
        rw [List.map_cons, List.map_cons]
        rw [show runVals (t.globalIndices :: u.globalIndices ::
            ts'.map ConstrHelper.globalIndices)
          = t.globalIndices :: runValsFrom t.globalIndices
              (u.globalIndices :: ts'.map ConstrHelper.globalIndices) from rfl]
        rw [processAvg.eq_def]
        dsimp only
        rw [if_true_eq_true, hX]
        by_cases hk : keptB dimEq (t.globalIndices :: u.globalIndices ::
            ts'.map ConstrHelper.globalIndices) t.globalIndices = true
        · rw [if_pos hk]
          dsimp only
          rw [if_false_eq_true]
          have hKf : (t.globalIndices :: runValsFrom t.globalIndices
                (u.globalIndices :: ts'.map ConstrHelper.globalIndices)).filter
                (keptB dimEq (t.globalIndices :: u.globalIndices ::
                  ts'.map ConstrHelper.globalIndices))
              = t.globalIndices :: (runValsFrom t.globalIndices
                  (u.globalIndices :: ts'.map ConstrHelper.globalIndices)).filter
                (keptB dimEq (u.globalIndices :: ts'.map ConstrHelper.globalIndices)) := by
            rw [List.filter_cons, if_pos hk]
            refine congrArg (List.cons t.globalIndices) (List.filter_congr fun g hg => ?_)
            have hstrict := runValsFrom_strict
              (u.globalIndices :: ts'.map ConstrHelper.globalIndices)
              t.globalIndices hch0 g hg
            exact keptB_cons_ne dimEq t.globalIndices g _ (Ne.symm (sigLt_ne hstrict))
          rw [hKf]
          have ih' := ih (some t.globalIndices) (c + 1) hch0
          simp only [runValsOpt, prevEq, List.map_cons] at ih'
          rw [ih']
          dsimp only
          have hEf : (t :: u :: ts').filter
                (fun w => keptB dimEq (t.globalIndices :: u.globalIndices ::
                  ts'.map ConstrHelper.globalIndices) w.globalIndices)
              = t :: (u :: ts').filter
                (fun w => keptB dimEq (t.globalIndices :: u.globalIndices ::
                  ts'.map ConstrHelper.globalIndices) w.globalIndices) := by
            rw [List.filter_cons, if_pos hk]
          rw [hEf]
          rw [List.map_cons]
          rw [indexOf_cons_self_lb]
          refine congrArg₂ Prod.mk ?_ ?_
          · rw [List.length_cons]
            omega
          · refine congrArg₂ List.cons ?_ ?_
            · refine congrArg₂ Prod.mk rfl ?_
              refine congrArg₂ Prod.mk rfl ?_
              push_cast
              ring
            · have hpc : ∀ w ∈ u :: ts',
                  ((w.globalIndices == t.globalIndices) ||
                    keptB dimEq (u.globalIndices :: ts'.map ConstrHelper.globalIndices)
                      w.globalIndices)
                  = keptB dimEq (t.globalIndices :: u.globalIndices ::
                      ts'.map ConstrHelper.globalIndices) w.globalIndices := by
                intro w hw
                by_cases hwt : w.globalIndices = t.globalIndices
                · have hb : (w.globalIndices == t.globalIndices) = true := by
                    rw [hwt]
                    exact beq_self_eq_true _
                  rw [hb, Bool.true_or, hwt]
                  exact hk.symm
                · have hb : (w.globalIndices == t.globalIndices) = false :=
                    beq_eq_false_iff_ne.mpr hwt
                  rw [hb, Bool.false_or,
                    keptB_cons_ne dimEq t.globalIndices w.globalIndices _ hwt]
              refine Eq.trans (congrArg (List.map _) (List.filter_congr hpc)) ?_
              refine List.map_congr_left fun w hw => ?_
              by_cases hwt : w.globalIndices = t.globalIndices
              · have hb : (w.globalIndices == t.globalIndices) = true := by
                  rw [hwt]
                  exact beq_self_eq_true _
                rw [hb, if_true_eq_true, hwt, indexOf_cons_self_lb]
                refine congrArg₂ Prod.mk rfl ?_
                refine congrArg₂ Prod.mk rfl ?_
                push_cast
                ring
              · have hb : (w.globalIndices == t.globalIndices) = false :=
                  beq_eq_false_iff_ne.mpr hwt
                rw [hb, if_false_eq_true,
                  indexOf_cons_ne_lb _ (fun h => hwt h.symm)]
                refine congrArg₂ Prod.mk rfl ?_
                refine congrArg₂ Prod.mk rfl ?_
                push_cast
                ring
        · rw [if_neg hk]
          dsimp only
          rw [if_true_eq_true]
          have hkf : keptB dimEq (t.globalIndices :: u.globalIndices ::
              ts'.map ConstrHelper.globalIndices) t.globalIndices = false := by
            revert hk
            cases keptB dimEq (t.globalIndices :: u.globalIndices ::
              ts'.map ConstrHelper.globalIndices) t.globalIndices <;> simp
          have hnm : t.globalIndices ∉ u.globalIndices ::
              ts'.map ConstrHelper.globalIndices := by
            intro hm
            have hpos := List.count_pos_iff.mpr hm
            have hparts := Bool.or_eq_false_iff.mp (by rw [keptB] at hkf; exact hkf)
            have hcnt := of_decide_eq_false hparts.2
            rw [List.count_cons_self] at hcnt
            omega
          have hKf : (t.globalIndices :: runValsFrom t.globalIndices
                (u.globalIndices :: ts'.map ConstrHelper.globalIndices)).filter
                (keptB dimEq (t.globalIndices :: u.globalIndices ::
                  ts'.map ConstrHelper.globalIndices))
              = (runValsFrom t.globalIndices
                  (u.globalIndices :: ts'.map ConstrHelper.globalIndices)).filter
                (keptB dimEq (u.globalIndices :: ts'.map ConstrHelper.globalIndices)) := by
            rw [List.filter_cons, if_neg hk]
            refine List.filter_congr fun g hg => ?_
            have hstrict := runValsFrom_strict
              (u.globalIndices :: ts'.map ConstrHelper.globalIndices)
              t.globalIndices hch0 g hg
            exact keptB_cons_ne dimEq t.globalIndices g _ (Ne.symm (sigLt_ne hstrict))
          rw [hKf]
          have ih' := ih (some t.globalIndices) c hch0
          simp only [runValsOpt, prevEq, List.map_cons] at ih'
          rw [ih']
          dsimp only
          have hEf : (t :: u :: ts').filter
                (fun w => keptB dimEq (t.globalIndices :: u.globalIndices ::
                  ts'.map ConstrHelper.globalIndices) w.globalIndices)
              = (u :: ts').filter
                (fun w => keptB dimEq (t.globalIndices :: u.globalIndices ::
                  ts'.map ConstrHelper.globalIndices) w.globalIndices) := by
            rw [List.filter_cons, if_neg hk]
          rw [hEf]
          refine congrArg₂ Prod.mk rfl ?_
          have hpc : ∀ w ∈ u :: ts',
              ((w.globalIndices == t.globalIndices) ||
                keptB dimEq (u.globalIndices :: ts'.map ConstrHelper.globalIndices)
                  w.globalIndices)
              = keptB dimEq (t.globalIndices :: u.globalIndices ::
                  ts'.map ConstrHelper.globalIndices) w.globalIndices := by
            intro w hw
            by_cases hwt : w.globalIndices = t.globalIndices
            · have hmemT : t.globalIndices ∈ u.globalIndices ::
                  ts'.map ConstrHelper.globalIndices := by
                rw [← hwt]
                exact List.mem_map_of_mem _ hw
              exact absurd hmemT hnm
            · have hb : (w.globalIndices == t.globalIndices) = false :=
                beq_eq_false_iff_ne.mpr hwt
              rw [hb, Bool.false_or,
                keptB_cons_ne dimEq t.globalIndices w.globalIndices _ hwt]
          refine Eq.trans (congrArg (List.map _) (List.filter_congr hpc)) ?_
          refine List.map_congr_left fun w hw => ?_
          have hwmem : w ∈ u :: ts' := (List.mem_filter.mp hw).1
          have hwt : ¬ w.globalIndices = t.globalIndices := by
            intro hwt
            have hmemT : t.globalIndices ∈ u.globalIndices ::
                ts'.map ConstrHelper.globalIndices := by
              rw [← hwt]
              exact List.mem_map_of_mem _ hwmem
            exact absurd hmemT hnm
          have hb : (w.globalIndices == t.globalIndices) = false :=
            beq_eq_false_iff_ne.mpr hwt
          rw [hb, if_false_eq_true]
    cases prev with
    | none =>
      simp only [runValsOpt, prevEq, Bool.false_or, if_false_eq_true]
      exact hnone
    | some p =>
      simp only [optPrepend] at hyp
      rw [List.map_cons] at hyp
      have hc1 := List.chain'_cons.mp hyp
      simp only [runValsOpt, prevEq]
      by_cases hpt : t.globalIndices = p
      · have hchp : List.Chain' (fun x y => sigLt y x = false)
            (p :: ts.map ConstrHelper.globalIndices) := by
          rw [← hpt]
          exact hch0
        have hrs0 : sigLt p t.globalIndices = false := by
          rw [hpt]
          exact sigLt_irrefl p
        rw [processAvg.eq_def]
        dsimp only
        rw [hrs0, if_false_eq_true]
        dsimp only
        rw [if_false_eq_true]
        rw [List.map_cons, hpt, runValsFrom_cons_self]
        have hKf : (runValsFrom p (ts.map ConstrHelper.globalIndices)).filter
              (keptB dimEq (p :: ts.map ConstrHelper.globalIndices))
            = (runValsFrom p (ts.map ConstrHelper.globalIndices)).filter
              (keptB dimEq (ts.map ConstrHelper.globalIndices)) :=
          List.filter_congr fun g hg =>
            keptB_cons_ne dimEq p g _
              (Ne.symm (sigLt_ne (runValsFrom_strict _ p hchp g hg)))
        rw [hKf]
        have ih' := ih (some p) c hchp
        simp only [runValsOpt, prevEq] at ih'
        rw [ih']
        dsimp only
        rw [List.filter_cons]
        have hQt : ((t.globalIndices == p) ||
            keptB dimEq (p :: ts.map ConstrHelper.globalIndices) t.globalIndices) = true := by
          have hb : (t.globalIndices == p) = true := by
            rw [hpt]
            exact beq_self_eq_true p
          rw [hb, Bool.true_or]
        rw [if_pos hQt]
        rw [List.map_cons]
        have hb : (t.globalIndices == p) = true := by
          rw [hpt]
          exact beq_self_eq_true p
        rw [hb, if_true_eq_true]
        refine congrArg₂ Prod.mk rfl ?_
        refine congrArg₂ List.cons rfl ?_
        have hpc2 : ∀ w ∈ ts,
            ((w.globalIndices == p) ||
              keptB dimEq (ts.map ConstrHelper.globalIndices) w.globalIndices)
            = ((w.globalIndices == p) ||
              keptB dimEq (p :: ts.map ConstrHelper.globalIndices) w.globalIndices) := by
          intro w hw
          by_cases hwp : w.globalIndices = p
          · have hbw : (w.globalIndices == p) = true := by
              rw [hwp]
              exact beq_self_eq_true p
            rw [hbw, Bool.true_or, Bool.true_or]
          · have hbw : (w.globalIndices == p) = false := beq_eq_false_iff_ne.mpr hwp
            rw [hbw, Bool.false_or, Bool.false_or]
            exact (keptB_cons_ne dimEq p w.globalIndices _ hwp).symm
        exact congrArg (List.map _) (List.filter_congr hpc2)
      · have hrs : sigLt p t.globalIndices = true := by
          cases hx : sigLt p t.globalIndices with
          | true => rfl
          | false => exact absurd (sigLt_conn hx hc1.1) (fun h => hpt h.symm)
        have hwnep : ∀ w ∈ t :: ts, w.globalIndices ≠ p := by
          intro w hw hwp
          rcases List.mem_cons.mp hw with h | h
          · subst h
            exact hpt hwp
          · have hall := chain_all_sig hch0 w.globalIndices (List.mem_map_of_mem _ h)
            rw [hwp] at hall
            rw [hall] at hrs
            exact Bool.false_ne_true hrs
        have hsame : processAvg dimEq (some p) c (t :: ts)
            = processAvg dimEq none c (t :: ts) := by
          rw [processAvg.eq_def]
          conv_rhs => rw [processAvg.eq_def]
          dsimp only
          rw [hrs]
        rw [hsame, hnone]
        have hKK : runValsFrom p ((t :: ts).map ConstrHelper.globalIndices)
            = runVals ((t :: ts).map ConstrHelper.globalIndices) := by
          rw [List.map_cons, runValsFrom_cons_ne (fun h => hpt h.symm)]
          rfl
        rw [hKK]
        refine congrArg₂ Prod.mk rfl ?_
        have hQ : ∀ w ∈ t :: ts,
            keptB dimEq ((t :: ts).map ConstrHelper.globalIndices) w.globalIndices
            = ((w.globalIndices == p) ||
              keptB dimEq ((t :: ts).map ConstrHelper.globalIndices) w.globalIndices) := by
          intro w hw
          have hbw : (w.globalIndices == p) = false :=
            beq_eq_false_iff_ne.mpr (hwnep w hw)
          rw [hbw, Bool.false_or]
        refine Eq.trans (congrArg (List.map _) (List.filter_congr hQ)) ?_
        refine List.map_congr_left fun w hw => ?_
        have hwmem : w ∈ t :: ts := (List.mem_filter.mp hw).1
        have hbw : (w.globalIndices == p) = false :=
          beq_eq_false_iff_ne.mpr (hwnep w hwmem)
        rw [hbw, if_false_eq_true]

/-- The sorted `constr_helper` list built by `interfaceAveragesAsPrimals` for
one component (gsIetiMapper.hpp:353-409): the nonzero assembled rows, each
with its sorted global-support signature, sorted by the `constr_helper`
comparator. -/
def sortedAvg (env : Env) (comp : List AvgConstraint) : List ConstrHelper :=
  List.insertionSort
    (fun a b : ConstrHelper => sigLt b.globalIndices a.globalIndices = false)
    ((comp.filter fun a => a.vec ≠ []).map fun a => mkConstrHelper env a.patch a.vec)

/-- The signatures that receive a fresh primal id in one component pass: the
run heads of the sorted signature list that are kept (repeated signatures,
or any signature if the component spans the whole domain). -/
def keptSigs (env : Env) (d : Nat) (comp : List AvgConstraint) : List (List Nat) :=
  (runVals ((sortedAvg env comp).map ConstrHelper.globalIndices)).filter
    (keptB (decide (env.basis.dim = d))
      ((sortedAvg env comp).map ConstrHelper.globalIndices))

lemma sortedAvg_chain (env : Env) (comp : List AvgConstraint) :
    List.Chain' (fun x y => sigLt y x = false)
      ((sortedAvg env comp).map ConstrHelper.globalIndices) := by
  have hp := List.sorted_insertionSort
    (fun a b : ConstrHelper => sigLt b.globalIndices a.globalIndices = false)
    ((comp.filter fun a => a.vec ≠ []).map fun a => mkConstrHelper env a.patch a.vec)
  exact ((@List.pairwise_map ConstrHelper (List Nat) ConstrHelper.globalIndices
    (fun x y => sigLt y x = false) _).mpr hp).chain'

/-- Closed form of one component pass (the loop body of
`interfaceAveragesAsPrimals` at gsIetiMapper.hpp:349-437): the primal counter
grows by one per kept signature run, and each kept constraint is registered
to its patch with id `old counter + rank of its signature among the kept
runs`; ignored singleton runs contribute nothing. -/
lemma avgComponentStep_closed (env : Env) (d : Nat) (st : IetiState)
    (comp : List AvgConstraint) :
    avgComponentStep env d st (d, comp)
      = { st with
          nPrimalDofs := st.nPrimalDofs + (keptSigs env d comp).length
          primalConstraints := (List.range st.primalConstraints.length).map fun k =>
            st.primalConstraints.getD k [] ++
              ((((sortedAvg env comp).filter fun t =>
                  keptB (decide (env.basis.dim = d))
                    ((sortedAvg env comp).map ConstrHelper.globalIndices)
                    t.globalIndices).filter fun t => t.patch = k).map fun t =>
                (t.vec,
                  (st.nPrimalDofs : Int)
                    + ((keptSigs env d comp).indexOf t.globalIndices : Int))) } := by
  rw [avgComponentStep, if_pos (show (d, comp).1 = d from rfl)]
  dsimp only
  rw [show List.insertionSort
      (fun a b : ConstrHelper => sigLt b.globalIndices a.globalIndices = false)
      ((comp.filter fun a => a.vec ≠ []).map fun a => mkConstrHelper env a.patch a.vec)
    = sortedAvg env comp from rfl]
  rw [processAvg_closed (decide (env.basis.dim = d)) (sortedAvg env comp) none
    st.nPrimalDofs (sortedAvg_chain env comp)]
  simp only [prevEq, runValsOpt, Bool.false_or, if_false_eq_true]
  rw [show (runVals ((sortedAvg env comp).map ConstrHelper.globalIndices)).filter
      (keptB (decide (env.basis.dim = d))
        ((sortedAvg env comp).map ConstrHelper.globalIndices))
    = keptSigs env d comp from rfl]
  refine congrArg₂ (fun a b => IetiState.mk st.status a b st.jumpMatrices) rfl ?_
  refine List.map_congr_left fun k hk => ?_
  refine congrArg₂ (· ++ ·) rfl ?_
  rw [List.filter_map, List.map_map]
  rfl

/-- Claim C4: in `interfaceAveragesAsPrimals` for dimension `d`, after
sorting one component's nonzero constraints by signature (sorted global
support indices, compared first by length then elementwise), the result is
characterized in closed form: writing `keptSigs` for the distinct signatures
that are repeated (runs of size at least two) or — when the component spans
the whole domain, i.e. `dim = d` — arbitrary, the primal counter grows by
exactly `keptSigs.length` (one shared id per kept run); every kept
constraint is registered to its patch with id `old + rank of its signature
among the kept runs`, so constraints of one run share a single new primal id
(same id iff same signature, and every id is one of the new ones); all other
runs of size one are discarded, contributing no constraint and no counter
increment. -/
theorem C4_interface_average_collapse (env : Env) (s : IetiState) (d : Nat)
    (comp : List AvgConstraint)
    (h1 : ¬ s.status &&& 1 = 0) (hd : ¬ d = 0) (hdim : ¬ env.basis.dim < d)
    (hflag : ¬ s.status &&& (1 <<< (3 + d)) ≠ 0) :
    interfaceAveragesAsPrimals env s d [(d, comp)] = .ok
      { status := s.status ||| (1 <<< (3 + d))
        nPrimalDofs := s.nPrimalDofs + (keptSigs env d comp).length
        primalConstraints := (List.range s.primalConstraints.length).map fun k =>
          s.primalConstraints.getD k [] ++
            ((((sortedAvg env comp).filter fun t =>
                keptB (decide (env.basis.dim = d))
                  ((sortedAvg env comp).map ConstrHelper.globalIndices)
                  t.globalIndices).filter fun t => t.patch = k).map fun t =>
              (t.vec,
                (s.nPrimalDofs : Int)
                  + ((keptSigs env d comp).indexOf t.globalIndices : Int)))
        jumpMatrices := s.jumpMatrices } ∧
    (∀ t ∈ (sortedAvg env comp).filter fun t =>
        keptB (decide (env.basis.dim = d))
          ((sortedAvg env comp).map ConstrHelper.globalIndices) t.globalIndices,
      ∀ u ∈ (sortedAvg env comp).filter fun t =>
        keptB (decide (env.basis.dim = d))
          ((sortedAvg env comp).map ConstrHelper.globalIndices) t.globalIndices,
      ((keptSigs env d comp).indexOf t.globalIndices
          = (keptSigs env d comp).indexOf u.globalIndices
        ↔ t.globalIndices = u.globalIndices)) ∧
    (∀ t ∈ (sortedAvg env comp).filter fun t =>
        keptB (decide (env.basis.dim = d))
          ((sortedAvg env comp).map ConstrHelper.globalIndices) t.globalIndices,
      (keptSigs env d comp).indexOf t.globalIndices < (keptSigs env d comp).length) := by
  refine ⟨?_, ?_, ?_⟩
  · rw [interfaceAveragesAsPrimals, if_neg h1, if_neg hd, if_neg hdim, if_neg hflag]
    rw [List.foldl_cons, List.foldl_nil]
    rw [avgComponentStep_closed]
  · intro t ht u hu
    have ht' := List.mem_filter.mp ht
    have hu' := List.mem_filter.mp hu
    have htk : t.globalIndices ∈ keptSigs env d comp :=
      List.mem_filter.mpr ⟨mem_runVals (List.mem_map_of_mem _ ht'.1), ht'.2⟩
    have huk : u.globalIndices ∈ keptSigs env d comp :=
      List.mem_filter.mpr ⟨mem_runVals (List.mem_map_of_mem _ hu'.1), hu'.2⟩
    constructor
    · intro hidx
      exact indexOf_mem_inj_lb _ _ _ htk huk hidx
    · intro hgi
      rw [hgi]
  · intro t ht
    have ht' := List.mem_filter.mp ht
    exact indexOf_lt_length_lb _ _
      (List.mem_filter.mpr ⟨mem_runVals (List.mem_map_of_mem _ ht'.1), ht'.2⟩)

/-- Witness for `C4_interface_average_collapse` at `env2`: one interface
component of dimension 1 with two nonzero averaged rows, one per patch, both
with signature `[2]` (the shared coupled dof); the run of size two collapses
to the single new primal id `0`, giving one constraint row on each of the
two subdomains. -/
theorem C4_interface_average_collapse_witness :
    interfaceAveragesAsPrimals env2 st1 1 [(1, [⟨0, [(1, 1)]⟩, ⟨1, [(0, 1)]⟩])] = .ok
      { status := 17
        nPrimalDofs := 1
        primalConstraints := [[([(1, 1)], 0)], [([(0, 1)], 0)]]
        jumpMatrices := none } := by
  have h := (C4_interface_average_collapse env2 st1 1 [⟨0, [(1, 1)]⟩, ⟨1, [(0, 1)]⟩]
    (by decide) (by decide) (by decide) (by decide)).1
  rw [h]
  decide

end GismoIeti
